import Mathlib

/-!
Shallow embedding of the erelim ORM (src/erelim/orm.py) and proofs about it.

Python record classes become `Schema` values: a class name plus the list of
declared descriptor fields in declaration order.  `inspect.getmembers`, which
the source uses to enumerate descriptors, returns members sorted by attribute
name; this is modelled by `sortFields`.

Python runtime values that can sit in an instance field are `PyValue`
(a nested record instance is `PyValue.obj`); values stored by sqlite are
`SqlValue`.  The sqlite engine itself is not part of the repository, so its
observable behaviour for the statement shapes the ORM generates (INSERT with
autoincrement id, SELECT * with ANDed equality filters, DELETE by id) is
modelled by `runSelect` / `Database.save` / `Database.delete` over `DBState`.
Exceptions are modelled with `Except PyErr`.
-/

/-- Logical column types accepted by `SQLITE_TYPE_MAP` (orm.py lines 5-11). -/
inductive PyType where
  | int
  | float
  | str
  | bytes
  | bool
deriving DecidableEq, Repr

/-- A value as stored/returned by the sqlite engine. -/
inductive SqlValue where
  | null
  | int (n : Int)
  | real (bits : Nat)
  | text (s : String)
  | blob (bs : List Nat)
deriving DecidableEq, Repr

/-- A Python runtime value that an instance field can hold.  `obj` is a nested
record instance, represented by its `_data` mapping. -/
inductive PyValue where
  | none
  | int (n : Int)
  | bool (b : Bool)
  | float (bits : Nat)
  | str (s : String)
  | bytes (bs : List Nat)
  | obj (data : List (String × PyValue))

/-- A record instance, represented by its field-name-to-value mapping
(the `_data` dict of `Table.__init__` together with attributes set by
`setattr`; both are read through the same lookup). -/
abbrev Instance := List (String × PyValue)

/-- Python exceptions that the modelled code paths can raise. -/
inductive PyErr where
  | typeError
  | attributeError
  | interfaceError
  | operationalError
  | recursionError
deriving DecidableEq, Repr

/-- A field descriptor: `Column(column_type)` or `ForeignKey(table)`
(orm.py lines 182-194). -/
inductive FieldSpec (σ : Type) where
  | column (type : PyType)
  | foreignKey (table : σ)

/-- A record class: its `__name__` and its declared descriptor fields in
declaration order. -/
inductive Schema where
  | mk (name : String) (fields : List (String × FieldSpec Schema))

def Schema.name : Schema → String
  | .mk n _ => n

def Schema.fields : Schema → List (String × FieldSpec Schema)
  | .mk _ fs => fs

/-- Python's `str.lower()`, mapped over the characters. -/
def pyLower (s : String) : String := String.mk (s.data.map Char.toLower)

/-- The sqlite table name used for a record class: `cls.__name__.lower()`. -/
def tableKey (s : Schema) : String := pyLower s.name

mutual
/-- Nesting depth of the foreign-key tree of a schema; used as fuel for the
recursive materialization. -/
def Schema.depth : Schema → Nat
  | .mk _ fs => 1 + depthFields fs

def depthFields : List (String × FieldSpec Schema) → Nat
  | [] => 0
  | (_, .column _) :: rest => depthFields rest
  | (_, .foreignKey r) :: rest => max r.depth (depthFields rest)
end

/-- Attribute lookup among the declared descriptors of a class
(`getattr(table, field)` where `field` names a descriptor). -/
def lookupField (fs : List (String × FieldSpec Schema)) (key : String) :
    Option (FieldSpec Schema) :=
  match fs with
  | [] => Option.none
  | (n, f) :: rest => if n = key then some f else lookupField rest key

/-- Dict lookup in an instance `_data` / attribute mapping. -/
def lookupPy (data : List (String × PyValue)) (key : String) : Option PyValue :=
  match data with
  | [] => Option.none
  | (n, v) :: rest => if n = key then some v else lookupPy rest key

/-- `setattr(instance, key, value)`: update the binding if present, else add it. -/
def setPy (data : List (String × PyValue)) (key : String) (v : PyValue) :
    List (String × PyValue) :=
  match data with
  | [] => [(key, v)]
  | (n, w) :: rest => if n = key then (n, v) :: rest else (n, w) :: setPy rest key v

/-- Apply a list of `setattr`s in order. -/
def setPys (data : List (String × PyValue)) :
    List (String × PyValue) → List (String × PyValue)
  | [] => data
  | (k, v) :: rest => setPys (setPy data k v) rest

/-- Python's `field.endswith("_id")`. -/
def hasIdSuffix (s : String) : Bool := ("_id").data.isSuffixOf s.data

/-- Python's `field[:-3]`, as used to strip the `_id` suffix. -/
def stripIdSuffix (s : String) : String := String.mk (s.data.take (s.data.length - 3))

/-- Lexicographic code-point comparison of character lists, as Python compares
strings. -/
def pyCharsLe : List Char → List Char → Bool
  | [], _ => true
  | _ :: _, [] => false
  | a :: as, b :: bs =>
    if a.toNat < b.toNat then true
    else if b.toNat < a.toNat then false
    else pyCharsLe as bs

/-- Python's string `<=`. -/
def pyStrLe (a b : String) : Bool := pyCharsLe a.data b.data

theorem pyCharsLe_total : ∀ a b, pyCharsLe a b = true ∨ pyCharsLe b a = true := by
  intro a
  induction a with
  | nil => intro b; left; rfl
  | cons x xs ih =>
    intro b
    cases b with
    | nil => right; rfl
    | cons y ys =>
      by_cases hxy : x.toNat < y.toNat
      · left; simp [pyCharsLe, hxy]
      · by_cases hyx : y.toNat < x.toNat
        · right; simp [pyCharsLe, hyx]
        · rcases ih ys with h | h
          · left; simp [pyCharsLe, hxy, hyx, h]
          · right; simp [pyCharsLe, hxy, hyx, h]

theorem pyCharsLe_trans :
    ∀ a b c, pyCharsLe a b = true → pyCharsLe b c = true → pyCharsLe a c = true := by
  intro a
  induction a with
  | nil => intro b c _ _; rfl
  | cons x xs ih =>
    intro b c hab hbc
    cases b with
    | nil => simp [pyCharsLe] at hab
    | cons y ys =>
      cases c with
      | nil => simp [pyCharsLe] at hbc
      | cons z zs =>
        simp only [pyCharsLe] at hab hbc ⊢
        by_cases hxy : x.toNat < y.toNat <;> by_cases hyz : y.toNat < z.toNat
        · simp [show x.toNat < z.toNat from lt_trans hxy hyz]
        · simp only [hyz, if_neg hyz, if_false] at hbc
          by_cases hzy : z.toNat < y.toNat
          · simp [hzy] at hbc
          · have hyz2 : y.toNat = z.toNat := le_antisymm (not_lt.mp hzy) (not_lt.mp hyz)
            simp [← hyz2, hxy]
        · simp only [if_neg hxy] at hab
          by_cases hyx : y.toNat < x.toNat
          · simp [hyx] at hab
          · have hxy2 : x.toNat = y.toNat := le_antisymm (not_lt.mp hyx) (not_lt.mp hxy)
            simp [hxy2, hyz]
        · simp only [if_neg hxy, if_neg hyz] at hab hbc
          by_cases hyx : y.toNat < x.toNat
          · simp [hyx] at hab
          · by_cases hzy : z.toNat < y.toNat
            · simp [hzy] at hbc
            · have hxy2 : x.toNat = y.toNat := le_antisymm (not_lt.mp hyx) (not_lt.mp hxy)
              have hyz2 : y.toNat = z.toNat := le_antisymm (not_lt.mp hzy) (not_lt.mp hyz)
              simp only [hxy2, hyz2, lt_irrefl, if_neg (lt_irrefl z.toNat), if_false]
              simp [hyx, hxy2, hyz2] at hab hbc
              exact ih ys zs hab hbc

/-- Sort key used by `inspect.getmembers`: ascending attribute name. -/
def fieldLe (a b : String × FieldSpec Schema) : Prop := pyStrLe a.1 b.1 = true

instance : DecidableRel fieldLe := fun _ _ => inferInstanceAs (Decidable (_ = true))

instance : IsTotal (String × FieldSpec Schema) fieldLe :=
  ⟨fun a b => pyCharsLe_total a.1.data b.1.data⟩

instance : IsTrans (String × FieldSpec Schema) fieldLe :=
  ⟨fun a b c h1 h2 => pyCharsLe_trans a.1.data b.1.data c.1.data h1 h2⟩

/-- `inspect.getmembers(cls)` enumerates the declared descriptors sorted by
attribute name (Python's `sorted` is stable; names are unique per class). -/
def sortFields (fs : List (String × FieldSpec Schema)) : List (String × FieldSpec Schema) :=
  List.insertionSort fieldLe fs

/-- `SQLITE_TYPE_MAP` (orm.py lines 5-11). -/
def SQLITE_TYPE_MAP : PyType → String
  | .int => "INTEGER"
  | .float => "REAL"
  | .str => "TEXT"
  | .bytes => "BLOB"
  | .bool => "INTEGER"

/-- The `Column` descriptor (orm.py lines 182-188). -/
structure Column where
  type : PyType

/-- `Column.sql_type` (orm.py lines 186-188). -/
def Column.sql_type (c : Column) : String := SQLITE_TYPE_MAP c.type

/-- The storage column name of a declared field: the field name itself for a
`Column`, `<name>_id` for a `ForeignKey`. -/
def storageName : String × FieldSpec Schema → String
  | (n, .column _) => n
  | (n, .foreignKey _) => n ++ "_id"

/-- How one declared field renders inside the CREATE TABLE column list
(orm.py lines 104-108). -/
def renderField : String × FieldSpec Schema → String
  | (n, .column t) => n ++ " " ++ SQLITE_TYPE_MAP t
  | (n, .foreignKey _) => n ++ "_id INTEGER"

/-- `Table._get_create_sql` (orm.py lines 99-109). -/
def _get_create_sql (s : Schema) : String :=
  "CREATE TABLE IF NOT EXISTS " ++ pyLower s.name ++ " (" ++
    String.intercalate (", ")
      ("id INTEGER PRIMARY KEY AUTOINCREMENT" :: (sortFields s.fields).map renderField) ++ ")"

/-- The ordered selectable column names of a record class: `id` first, then the
storage names of the declared fields in `getmembers` (alphabetical) order
(orm.py lines 138-143). -/
def selectFields (s : Schema) : List String :=
  "id" :: (sortFields s.fields).map storageName

/-- `Table._get_select_sql` (orm.py lines 135-152): SELECT text, ordered field
names, ordered parameter values. -/
def _get_select_sql (s : Schema) (kwargs : List (String × PyValue)) :
    String × List String × List PyValue :=
  let whereClause :=
    if kwargs.isEmpty then "" else
      " WHERE " ++ String.intercalate (" AND ") (kwargs.map (fun kv => kv.1 ++ " = ?"))
  ("SELECT * FROM " ++ pyLower s.name ++ whereClause, selectFields s, kwargs.map Prod.snd)

/-- `Table._get_delete_sql` (orm.py lines 174-178). -/
def _get_delete_sql (s : Schema) (id : PyValue) : String × List PyValue :=
  ("DELETE FROM " ++ pyLower s.name ++ " WHERE id = ?", [id])

/-- `Table._get_insert_sql` (orm.py lines 111-133).  For a `Column` field the
bound value is `getattr(self, name)`; for a `ForeignKey` field it is
`getattr(self, name).id`.  A missing column value makes `getattr` fall back to
the class's `Column` descriptor, which sqlite cannot bind (InterfaceError at
execute time); `.id` on a non-instance raises AttributeError. -/
def _get_insert_sql (s : Schema) (inst : Instance) :
    Except PyErr (String × List PyValue) := do
  let entries ← (sortFields s.fields).mapM (fun nf =>
    match nf with
    | (n, .column _) =>
      match lookupPy inst n with
      | some v => Except.ok (n, v)
      | Option.none => Except.error PyErr.interfaceError
    | (n, .foreignKey _) =>
      match lookupPy inst n with
      | some (.obj d) =>
        match lookupPy d ("id") with
        | some v => Except.ok (n ++ "_id", v)
        | Option.none => Except.error PyErr.attributeError
      | _ => Except.error PyErr.attributeError)
  let fieldNames := entries.map Prod.fst
  Except.ok
    ("INSERT INTO " ++ pyLower s.name ++ " (" ++ String.intercalate (", ") fieldNames ++
       ") VALUES (" ++ String.intercalate (", ") (fieldNames.map (fun _ => "?")) ++ ")",
     entries.map Prod.snd)

/-! ## The sqlite engine model -/

/-- One table's stored state: rows as `(rowid, cells)` with cells in the
table's column order (which equals `selectFields` minus the leading `id`),
plus the AUTOINCREMENT sequence counter. -/
structure TableData where
  rows : List (Int × List SqlValue)
  seq : Int
deriving Repr

/-- The database: tables keyed by (lowercased) table name, plus a counter of
`commit()` calls so committing is observable. -/
structure DBState where
  tables : List (String × TableData)
  commits : Nat

def lookupTableL : List (String × TableData) → String → Option TableData
  | [], _ => Option.none
  | (n, td) :: rest, key => if n = key then some td else lookupTableL rest key

def lookupTable (db : DBState) (key : String) : Option TableData :=
  lookupTableL db.tables key

def setTableL : List (String × TableData) → String → TableData → List (String × TableData)
  | [], _, _ => []
  | (n, td0) :: rest, key, td =>
    (if n = key then (n, td) else (n, td0)) :: setTableL rest key td

/-- Replace the state of table `key` (which must exist). -/
def setTable (db : DBState) (key : String) (td : TableData) : DBState :=
  { db with tables := setTableL db.tables key td }

/-- `conn.commit()`. -/
def commitDB (db : DBState) : DBState := { db with commits := db.commits + 1 }

/-- Adapting a Python value for binding as a statement parameter
(sqlite3's adapters: bool becomes 1/0, None becomes NULL, a record instance
is not adaptable). -/
def bindPy : PyValue → Except PyErr SqlValue
  | .none => Except.ok SqlValue.null
  | .int n => Except.ok (SqlValue.int n)
  | .bool b => Except.ok (SqlValue.int (if b then 1 else 0))
  | .float bits => Except.ok (SqlValue.real bits)
  | .str s => Except.ok (SqlValue.text s)
  | .bytes bs => Except.ok (SqlValue.blob bs)
  | .obj _ => Except.error PyErr.interfaceError

/-- The Python value sqlite3 returns for a stored value. -/
def rawToPy : SqlValue → PyValue
  | SqlValue.null => PyValue.none
  | SqlValue.int n => PyValue.int n
  | SqlValue.real bits => PyValue.float bits
  | SqlValue.text s => PyValue.str s
  | SqlValue.blob bs => PyValue.bytes bs

/-- SQL `=` comparison for a `col = ?` filter: NULL compares equal to nothing;
otherwise same-typed values compare by value.  (Numeric affinity between
INTEGER and REAL is not modelled; no claim depends on it.) -/
def sqlEq : SqlValue → SqlValue → Bool
  | SqlValue.null, _ => false
  | _, SqlValue.null => false
  | SqlValue.int a, SqlValue.int b => a == b
  | SqlValue.real a, SqlValue.real b => a == b
  | SqlValue.text a, SqlValue.text b => a == b
  | SqlValue.blob a, SqlValue.blob b => a == b
  | _, _ => false

/-- The stored cell of `row` that a filter key addresses: `id` addresses the
rowid, any other key addresses its column (by position in `selectFields`). -/
def cellAt (s : Schema) (row : Int × List SqlValue) (key : String) : Option SqlValue :=
  if key = "id" then some (SqlValue.int row.1)
  else
    match ((sortFields s.fields).map storageName).findIdx? (fun n => n == key) with
    | some i => row.2[i]?
    | Option.none => Option.none

/-- Whether a row satisfies the ANDed equality filters. -/
def rowMatches (s : Schema) (row : Int × List SqlValue)
    (bound : List (String × SqlValue)) : Bool :=
  bound.all (fun kc =>
    match cellAt s row kc.1 with
    | some cell => sqlEq cell kc.2
    | Option.none => false)

/-- Executing the SELECT produced by `_get_select_sql s kwargs`: error if the
table does not exist or a filter key names no column (sqlite OperationalError),
error if a parameter cannot be bound; otherwise the matching rows in stored
order, each as `rowid :: cells`. -/
def runSelect (db : DBState) (s : Schema) (kwargs : List (String × PyValue)) :
    Except PyErr (List (Int × List SqlValue)) := do
  match lookupTable db (tableKey s) with
  | Option.none => Except.error PyErr.operationalError
  | some td =>
    if kwargs.all (fun kv => (selectFields s).contains kv.1) then do
      let bound ← kwargs.mapM (fun kv => do
        let c ← bindPy kv.2
        Except.ok (kv.1, c))
      Except.ok (td.rows.filter (fun r => rowMatches s r bound))
    else Except.error PyErr.operationalError

/-! ## Database gateway (orm.py lines 14-77) -/

/-- `Database.create` (orm.py lines 23-24): executes the
`CREATE TABLE IF NOT EXISTS` statement — a fresh empty table unless one with
that name already exists. -/
def Database.create (db : DBState) (s : Schema) : DBState :=
  match lookupTable db (tableKey s) with
  | some _ => db
  | Option.none => { db with tables := db.tables ++ [(tableKey s, ⟨[], 0⟩)] }

/-- The value of `get_by_id`'s result as assigned to an instance field: the
nested instance, or `None` when there was no row. -/
def optToPy : Option Instance → PyValue
  | some d => PyValue.obj d
  | Option.none => PyValue.none

/-- Python's `value == 1` where `value` came out of sqlite
(orm.py line 75).  `4607182418800017408` is the bit pattern of the float 1.0. -/
def pyEqOne : SqlValue → Bool
  | SqlValue.int n => n == 1
  | SqlValue.real bits => bits == 4607182418800017408
  | _ => false

/-- The per-field loop body of `Database._build_instance` (orm.py lines 69-76),
parametrized by the `get_by_id` used for foreign-key dereference.
Priority per zipped `(field, value)`: (1) a `_id`-suffixed name strips the
suffix, looks up the ForeignKey descriptor (AttributeError if the stripped
name is no ForeignKey) and dereferences; (2) a boolean Column converts via
`value == 1` (AttributeError if `.type` is read off a ForeignKey); (3) the
raw value is kept. -/
def buildFieldsWith (gbi : Schema → PyValue → Except PyErr (Option Instance))
    (table : Schema) :
    List (String × SqlValue) → Except PyErr (List (String × PyValue))
  | [] => Except.ok []
  | (field, value) :: rest =>
    if hasIdSuffix field then
      match lookupField table.fields (stripIdSuffix field) with
      | some (.foreignKey fk) => do
        let v ← gbi fk (rawToPy value)
        let pairs ← buildFieldsWith gbi table rest
        Except.ok ((stripIdSuffix field, optToPy v) :: pairs)
      | _ => Except.error PyErr.attributeError
    else
      match lookupField table.fields field with
      | some (.column t) =>
        if t = PyType.bool then do
          let pairs ← buildFieldsWith gbi table rest
          Except.ok ((field, PyValue.bool (pyEqOne value)) :: pairs)
        else do
          let pairs ← buildFieldsWith gbi table rest
          Except.ok ((field, rawToPy value) :: pairs)
      | some (.foreignKey _) => Except.error PyErr.attributeError
      | Option.none => do
        let pairs ← buildFieldsWith gbi table rest
        Except.ok ((field, rawToPy value) :: pairs)

/-- `Database._build_instance` (orm.py lines 67-77) parametrized by the
`get_by_id` used for foreign keys: start from `table()` (whose `_data` is
`{"id": None}`) and `setattr` each zipped field. -/
def buildInstanceWith (gbi : Schema → PyValue → Except PyErr (Option Instance))
    (fields : List String) (row : List SqlValue) (table : Schema) :
    Except PyErr Instance := do
  let pairs ← buildFieldsWith gbi table (fields.zip row)
  Except.ok (setPys [("id", PyValue.none)] pairs)

/-- `Database.get_by_id` (orm.py lines 40-45) with explicit recursion fuel:
run the select filtered on `id`, `fetchone`, and either materialize the row or
return `None`.  The Python recursion is unbounded; here each nesting level
consumes one unit of fuel, and the public wrapper supplies `Schema.depth`,
which always suffices for the cycle-free schemas representable as `Schema`
trees. -/
def get_by_idF : Nat → DBState → Schema → PyValue → Except PyErr (Option Instance)
  | 0, _, _, _ => Except.error PyErr.recursionError
  | fuel + 1, db, table, id => do
    let rows ← runSelect db table [("id", id)]
    match rows.head? with
    | Option.none => Except.ok Option.none
    | some r => do
      let inst ← buildInstanceWith (fun t v => get_by_idF fuel db t v)
        (selectFields table) (SqlValue.int r.1 :: r.2) table
      Except.ok (some inst)

/-- `Database.get_by_id` (orm.py lines 40-45). -/
def Database.get_by_id (db : DBState) (table : Schema) (id : PyValue) :
    Except PyErr (Option Instance) :=
  get_by_idF table.depth db table id

/-- `Database._build_instance` (orm.py lines 67-77). -/
def Database._build_instance (db : DBState) (fields : List String)
    (row : List SqlValue) (table : Schema) : Except PyErr Instance :=
  buildInstanceWith (fun t v => Database.get_by_id db t v) fields row table

/-- `Database.save` (orm.py lines 26-31): execute the insert, set the
instance's `id` from `cursor.lastrowid`, commit. -/
def Database.save (db : DBState) (s : Schema) (inst : Instance) :
    Except PyErr (DBState × Instance) := do
  let sqlValues ← _get_insert_sql s inst
  let cells ← sqlValues.2.mapM bindPy
  match lookupTable db (tableKey s) with
  | Option.none => Except.error PyErr.operationalError
  | some td =>
    let newId := td.seq + 1
    let db2 := commitDB (setTable db (tableKey s) ⟨td.rows ++ [(newId, cells)], newId⟩)
    Except.ok (db2, setPy inst ("id") (PyValue.int newId))

/-- `Database.get_all` (orm.py lines 33-38): unfiltered select, materialize
every row. -/
def Database.get_all (db : DBState) (s : Schema) : Except PyErr (List Instance) := do
  let rows ← runSelect db s []
  rows.mapM (fun r =>
    Database._build_instance db (selectFields s) (SqlValue.int r.1 :: r.2) s)

/-- `Database.filter` (orm.py lines 47-52): filtered select; materialize the
rows if there are any, else return `[]`. -/
def Database.filter (db : DBState) (s : Schema) (kwargs : List (String × PyValue)) :
    Except PyErr (List Instance) := do
  let rows ← runSelect db s kwargs
  if rows.isEmpty then Except.ok []
  else rows.mapM (fun r =>
    Database._build_instance db (selectFields s) (SqlValue.int r.1 :: r.2) s)

/-- `Database.delete` (orm.py lines 59-62): execute the delete statement and
commit. -/
def Database.delete (db : DBState) (s : Schema) (id : PyValue) :
    Except PyErr DBState := do
  let _sqlParams := _get_delete_sql s id
  let c ← bindPy id
  match lookupTable db (tableKey s) with
  | Option.none => Except.error PyErr.operationalError
  | some td =>
    Except.ok (commitDB (setTable db (tableKey s)
      { td with rows := td.rows.filter (fun r => !(sqlEq (SqlValue.int r.1) c)) }))

/-! ## Query builder (orm.py lines 198-235) -/

/-- `QueryObject.__init__` state (orm.py lines 199-206); the gateway pointer is
passed to `execute` instead of being stored. -/
structure QueryObject where
  _table : Schema
  _order_dir : String
  _order_criteria : Option String
  _filter_data : Option (List (String × PyValue))
  _limit_count : Option Int

/-- `Database.get` (orm.py lines 64-65). -/
def Database.get (table : Schema) : QueryObject :=
  ⟨table, " ASC", Option.none, Option.none, Option.none⟩

/-- `QueryObject.where` (orm.py lines 208-210). -/
def QueryObject.where_ (q : QueryObject) (kwargs : List (String × PyValue)) :
    QueryObject :=
  { q with _filter_data := some kwargs }

/-- `QueryObject.order_by` (orm.py lines 212-216): always records the new
criteria; switches the direction to DESC only when `desc` is true. -/
def QueryObject.order_by (q : QueryObject) (criteria : String) (desc : Bool) :
    QueryObject :=
  let q2 := { q with _order_criteria := some criteria }
  if desc then { q2 with _order_dir := " DESC" } else q2

/-- `QueryObject.limit` (orm.py lines 218-221): stores the count unless it is
`None`. -/
def QueryObject.limit (q : QueryObject) (count : Option Int) : QueryObject :=
  match count with
  | Option.none => q
  | some n => { q with _limit_count := some n }

/-- Python truthiness of `self._order_criteria` (None and "" are falsy). -/
def truthyStr : Option String → Bool
  | Option.none => false
  | some s => !(s.isEmpty)

/-- Python truthiness of `self._limit_count` (None and 0 are falsy). -/
def truthyInt : Option Int → Bool
  | Option.none => false
  | some n => n != 0

/-- sqlite ordering of stored values for ORDER BY: NULLs first, then numerics,
text, blobs.  (The exact int/real and blob orderings are approximated; no
claim depends on the order `execute` returns rows in.) -/
def sqlLe : SqlValue → SqlValue → Bool
  | SqlValue.null, _ => true
  | _, SqlValue.null => false
  | SqlValue.int a, SqlValue.int b => a ≤ b
  | SqlValue.int _, _ => true
  | SqlValue.real _, SqlValue.int _ => true
  | SqlValue.real a, SqlValue.real b => a ≤ b
  | SqlValue.real _, _ => true
  | SqlValue.text a, SqlValue.text b => a ≤ b
  | SqlValue.text _, SqlValue.blob _ => true
  | SqlValue.text _, _ => false
  | SqlValue.blob _, SqlValue.blob _ => true
  | SqlValue.blob _, _ => false

/-- Stable insertion of a row under an ordering on rows. -/
def insertRowBy (le : (Int × List SqlValue) → (Int × List SqlValue) → Bool)
    (r : Int × List SqlValue) :
    List (Int × List SqlValue) → List (Int × List SqlValue)
  | [] => [r]
  | x :: xs => if le r x then r :: x :: xs else x :: insertRowBy le r xs

/-- ORDER BY semantics: sort the result rows by the named column. -/
def sortRowsBy (s : Schema) (criteria : String) (descend : Bool)
    (rows : List (Int × List SqlValue)) : List (Int × List SqlValue) :=
  let key := fun (r : Int × List SqlValue) => (cellAt s r criteria).getD SqlValue.null
  let le := fun a b =>
    if descend then sqlLe (key b) (key a) else sqlLe (key a) (key b)
  rows.foldr (insertRowBy le) []

/-- `QueryObject.execute` (orm.py lines 223-235).  `**self._filter_data` with
`_filter_data = None` raises `TypeError` (argument after ** must be a mapping,
not NoneType); this happens whenever `where` was never called. -/
def QueryObject.execute (db : DBState) (q : QueryObject) :
    Except PyErr (List Instance) := do
  match q._filter_data with
  | Option.none => Except.error PyErr.typeError
  | some kwargs => do
    let rows ← runSelect db q._table kwargs
    let rows1 ←
      if truthyStr q._order_criteria then
        match q._order_criteria with
        | some c =>
          if (selectFields q._table).contains c then
            Except.ok (sortRowsBy q._table c (q._order_dir == " DESC") rows)
          else Except.error PyErr.operationalError
        | Option.none => Except.ok rows
      else Except.ok rows
    let rows2 :=
      if truthyInt q._limit_count then
        match q._limit_count with
        | some n => if n < 0 then rows1 else rows1.take n.toNat
        | Option.none => rows1
      else rows1
    if rows2.isEmpty then Except.ok []
    else rows2.mapM (fun r =>
      Database._build_instance db (selectFields q._table) (SqlValue.int r.1 :: r.2) q._table)

/-! ## Well-formedness and conformance predicates

These are the side conditions under which the ORM's read and write paths are
exercised as intended: unique declared names, no field named `id`, no `Column`
name ending in `_id` (such a name would be mistaken for a foreign-key column
during materialization), every table of the foreign-key tree present in the
database with well-shaped rows. -/

/-- No duplicates, as a computable check. -/
def nodupB : List String → Bool
  | [] => true
  | x :: xs => (!(xs.contains x)) && nodupB xs

/-- Per-class declaration sanity (spec section 3 invariant plus the `_id`
naming sharp edge). -/
def wfTopB (fs : List (String × FieldSpec Schema)) : Bool :=
  nodupB (fs.map Prod.fst) && (!((fs.map Prod.fst).contains ("id"))) &&
    fs.all (fun nf =>
      match nf.2 with
      | .column _ => !(hasIdSuffix nf.1)
      | .foreignKey _ => true)

mutual
/-- Well-formedness of a schema and of every schema it references. -/
def wfB : Schema → Bool
  | .mk _ fs => wfTopB fs && wfFieldsB fs

def wfFieldsB : List (String × FieldSpec Schema) → Bool
  | [] => true
  | (_, .column _) :: rest => wfFieldsB rest
  | (_, .foreignKey r) :: rest => wfB r && wfFieldsB rest
end

mutual
/-- The table of `s`, and of every schema `s` references, exists in `db`, its
rows have one cell per declared field, and every rowid is bounded by the
AUTOINCREMENT sequence counter (which sqlite guarantees). -/
def conformsB (db : DBState) : Schema → Bool
  | .mk n fs =>
    (match lookupTable db (pyLower n) with
     | some td => td.rows.all (fun r => r.2.length == fs.length && r.1 ≤ td.seq)
     | Option.none => false) && conformsFieldsB db fs

def conformsFieldsB (db : DBState) : List (String × FieldSpec Schema) → Bool
  | [] => true
  | (_, .column _) :: rest => conformsFieldsB db rest
  | (_, .foreignKey r) :: rest => conformsB db r && conformsFieldsB db rest
end

mutual
/-- `nm` is not the table key of `s` nor of any schema `s` references. -/
def treeAvoidsB (nm : String) : Schema → Bool
  | .mk n fs => (pyLower n != nm) && fieldsAvoidB nm fs

def fieldsAvoidB (nm : String) : List (String × FieldSpec Schema) → Bool
  | [] => true
  | (_, .column _) :: rest => fieldsAvoidB nm rest
  | (_, .foreignKey r) :: rest => treeAvoidsB nm r && fieldsAvoidB nm rest
end

/-- The stored value an instance field may hold so that it binds and survives
the sqlite round trip: a value of the declared scalar type (or NULL for the
non-boolean types). -/
def typeOkB : PyType → PyValue → Bool
  | PyType.bool, PyValue.bool _ => true
  | PyType.int, PyValue.int _ => true
  | PyType.int, PyValue.none => true
  | PyType.float, PyValue.float _ => true
  | PyType.float, PyValue.none => true
  | PyType.str, PyValue.str _ => true
  | PyType.str, PyValue.none => true
  | PyType.bytes, PyValue.bytes _ => true
  | PyType.bytes, PyValue.none => true
  | _, _ => false

/-- One declared field of `inst` is ready for a faithful save against `db`:
a column holds a type-correct value; a foreign key holds a nested instance
whose `id` is an integer that actually identifies a row of the referenced
table. -/
def elemOkB (db : DBState) (inst : Instance) : String × FieldSpec Schema → Bool
  | (n, .column t) =>
    match lookupPy inst n with
    | some v => typeOkB t v
    | Option.none => false
  | (n, .foreignKey ref) =>
    match lookupPy inst n with
    | some (.obj d) =>
      (match lookupPy d ("id") with
       | some (PyValue.int rid) =>
         (match lookupTable db (tableKey ref) with
          | some td => td.rows.any (fun r => r.1 == rid)
          | Option.none => false)
       | _ => false)
    | _ => false

/-- Every declared field of `inst` is ready for a faithful save against `db`. -/
def instOkB (db : DBState) (inst : Instance) (fs : List (String × FieldSpec Schema)) : Bool :=
  fs.all (elemOkB db inst)

/-! ## Basic lemmas -/

theorem andE {a b : Bool} (h : (a && b) = true) : a = true ∧ b = true := by
  simp only [Bool.and_eq_true] at h
  exact h

theorem lookupPy_setPy_self (d : Instance) (k : String) (v : PyValue) :
    lookupPy (setPy d k v) k = some v := by
  induction d with
  | nil => simp [setPy, lookupPy]
  | cons p rest ih =>
    by_cases h : p.1 = k
    · simp [setPy, lookupPy, h]
    · simp [setPy, lookupPy, h, ih]

theorem lookupPy_setPy_ne (d : Instance) (k k2 : String) (v : PyValue) (h : k ≠ k2) :
    lookupPy (setPy d k v) k2 = lookupPy d k2 := by
  induction d with
  | nil => simp [setPy, lookupPy, h]
  | cons p rest ih =>
    by_cases hp : p.1 = k
    · simp [setPy, lookupPy, hp, h, ih]
    · simp [setPy, lookupPy, hp, ih]

theorem lookupPy_setPys_not_mem (ps : List (String × PyValue)) (d : Instance)
    (k : String) (h : k ∉ ps.map Prod.fst) :
    lookupPy (setPys d ps) k = lookupPy d k := by
  induction ps generalizing d with
  | nil => rfl
  | cons p rest ih =>
    simp only [List.map_cons, List.mem_cons] at h
    push_neg at h
    simp only [setPys]
    rw [ih _ h.2, lookupPy_setPy_ne _ _ _ _ (fun he => h.1 he.symm)]

theorem lookupPy_setPys_mem (ps : List (String × PyValue)) (d : Instance)
    (k : String) (v : PyValue) (hnd : (ps.map Prod.fst).Nodup) (hmem : (k, v) ∈ ps) :
    lookupPy (setPys d ps) k = some v := by
  induction ps generalizing d with
  | nil => cases hmem
  | cons p rest ih =>
    simp only [List.map_cons, List.nodup_cons] at hnd
    rcases List.mem_cons.mp hmem with h | h
    · subst h
      simp only [setPys]
      rw [lookupPy_setPys_not_mem _ _ _ hnd.1, lookupPy_setPy_self]
    · exact ih _ hnd.2 h

theorem lookupField_eq_some_of_mem (fs : List (String × FieldSpec Schema))
    (n : String) (f : FieldSpec Schema) (hnd : (fs.map Prod.fst).Nodup)
    (hmem : (n, f) ∈ fs) : lookupField fs n = some f := by
  induction fs with
  | nil => cases hmem
  | cons p rest ih =>
    simp only [List.map_cons, List.nodup_cons] at hnd
    rcases List.mem_cons.mp hmem with h | h
    · subst h; simp [lookupField]
    · have hne : p.1 ≠ n := by
        intro he
        exact hnd.1 (he ▸ List.mem_map_of_mem Prod.fst h)
      cases p with
      | mk pn pf => simpa [lookupField, hne] using ih hnd.2 h

theorem lookupField_eq_none (fs : List (String × FieldSpec Schema)) (n : String)
    (h : n ∉ fs.map Prod.fst) : lookupField fs n = Option.none := by
  induction fs with
  | nil => rfl
  | cons p rest ih =>
    simp only [List.map_cons, List.mem_cons] at h
    push_neg at h
    cases p with
    | mk pn pf => simpa [lookupField, Ne.symm h.1] using ih h.2

theorem mapM_ok {α β : Type} (l : List α) (f : α → Except PyErr β) (g : α → β)
    (h : ∀ x ∈ l, f x = Except.ok (g x)) : l.mapM f = Except.ok (l.map g) := by
  induction l with
  | nil => rfl
  | cons x xs ih =>
    rw [List.mapM_cons, h x (List.mem_cons_self x xs),
      ih (fun y hy => h y (List.mem_cons_of_mem x hy))]
    rfl

theorem nodupB_iff (l : List String) : nodupB l = true ↔ l.Nodup := by
  induction l with
  | nil => simp [nodupB]
  | cons x xs ih =>
    simp only [nodupB, Bool.and_eq_true, Bool.not_eq_true', List.nodup_cons, ih]
    constructor
    · rintro ⟨h1, h2⟩
      exact ⟨by simpa using (List.contains_eq_any_beq xs x ▸ h1 : xs.contains x = false), h2⟩
    · rintro ⟨h1, h2⟩
      refine ⟨?_, h2⟩
      by_contra hc
      simp only [Bool.not_eq_false] at hc
      exact h1 (by simpa using hc)

theorem hasIdSuffix_append (n : String) : hasIdSuffix (n ++ "_id") = true := by
  simp only [hasIdSuffix, String.data_append]
  exact List.isSuffixOf_iff_suffix.mpr (List.suffix_append n.data ("_id").data)

theorem stripIdSuffix_append (n : String) : stripIdSuffix (n ++ "_id") = n := by
  simp only [stripIdSuffix, String.data_append]
  have hlen : (n.data ++ ("_id").data).length - 3 = n.data.length := by
    simp [List.length_append]
  rw [hlen]
  rw [List.take_left]

theorem depth_ref_le_depthFields (fs : List (String × FieldSpec Schema))
    (n : String) (r : Schema) (h : (n, FieldSpec.foreignKey r) ∈ fs) :
    r.depth ≤ depthFields fs := by
  induction fs with
  | nil => cases h
  | cons p rest ih =>
    rcases List.mem_cons.mp h with he | hm
    · subst he
      simp [depthFields, le_max_left]
    · cases p with
      | mk pn pf =>
        cases pf with
        | column t => simpa [depthFields] using ih hm
        | foreignKey r2 =>
          simp only [depthFields]
          exact le_max_of_le_right (ih hm)

theorem depth_pos (s : Schema) : 1 ≤ s.depth := by
  cases s with
  | mk n fs => simp [Schema.depth]

/-! ## Lemmas about sorting and the predicates -/

theorem sortFields_perm (fs : List (String × FieldSpec Schema)) :
    (sortFields fs).Perm fs :=
  List.perm_insertionSort fieldLe fs

theorem mem_of_mem_sortFields {fs : List (String × FieldSpec Schema)}
    {x : String × FieldSpec Schema} (h : x ∈ sortFields fs) : x ∈ fs :=
  (sortFields_perm fs).mem_iff.mp h

theorem sortFields_map_fst_nodup {fs : List (String × FieldSpec Schema)}
    (h : (fs.map Prod.fst).Nodup) : ((sortFields fs).map Prod.fst).Nodup :=
  (((sortFields_perm fs).map Prod.fst).nodup_iff).mpr h

theorem wfB_unfold (n : String) (fs : List (String × FieldSpec Schema)) :
    wfB (.mk n fs) = (wfTopB fs && wfFieldsB fs) := by
  rw [wfB]

theorem conformsB_unfold (db : DBState) (n : String) (fs : List (String × FieldSpec Schema)) :
    conformsB db (.mk n fs) =
      ((match lookupTable db (pyLower n) with
        | some td => td.rows.all (fun r => r.2.length == fs.length && r.1 ≤ td.seq)
        | Option.none => false) && conformsFieldsB db fs) := by
  rw [conformsB]

theorem wfFieldsB_ref {fs : List (String × FieldSpec Schema)} {n : String} {r : Schema}
    (hwf : wfFieldsB fs = true) (hmem : (n, FieldSpec.foreignKey r) ∈ fs) :
    wfB r = true := by
  induction fs with
  | nil => cases hmem
  | cons p rest ih =>
    rcases List.mem_cons.mp hmem with he | hm
    · subst he
      rw [wfFieldsB] at hwf
      exact (andE hwf).1
    · cases p with
      | mk pn pf =>
        cases pf with
        | column t => rw [wfFieldsB] at hwf; exact ih hwf hm
        | foreignKey r2 =>
          rw [wfFieldsB] at hwf
          exact ih (andE hwf).2 hm

theorem conformsFieldsB_ref {db : DBState} {fs : List (String × FieldSpec Schema)}
    {n : String} {r : Schema}
    (hc : conformsFieldsB db fs = true) (hmem : (n, FieldSpec.foreignKey r) ∈ fs) :
    conformsB db r = true := by
  induction fs with
  | nil => cases hmem
  | cons p rest ih =>
    rcases List.mem_cons.mp hmem with he | hm
    · subst he
      rw [conformsFieldsB] at hc
      exact (andE hc).1
    · cases p with
      | mk pn pf =>
        cases pf with
        | column t => rw [conformsFieldsB] at hc; exact ih hc hm
        | foreignKey r2 =>
          rw [conformsFieldsB] at hc
          exact ih (andE hc).2 hm

theorem fieldsAvoidB_ref {nm : String} {fs : List (String × FieldSpec Schema)}
    {n : String} {r : Schema}
    (ha : fieldsAvoidB nm fs = true) (hmem : (n, FieldSpec.foreignKey r) ∈ fs) :
    treeAvoidsB nm r = true := by
  induction fs with
  | nil => cases hmem
  | cons p rest ih =>
    rcases List.mem_cons.mp hmem with he | hm
    · subst he
      rw [fieldsAvoidB] at ha
      exact (andE ha).1
    · cases p with
      | mk pn pf =>
        cases pf with
        | column t => rw [fieldsAvoidB] at ha; exact ih ha hm
        | foreignKey r2 =>
          rw [fieldsAvoidB] at ha
          exact ih (andE ha).2 hm

/-- From `wfB` of a schema: the pieces of `wfTopB` plus `wfFieldsB`. -/
theorem wfB_parts {s : Schema} (h : wfB s = true) :
    (s.fields.map Prod.fst).Nodup ∧ "id" ∉ s.fields.map Prod.fst ∧
      (∀ n t, (n, FieldSpec.column t) ∈ s.fields → hasIdSuffix n = false) ∧
      wfFieldsB s.fields = true := by
  cases s with
  | mk nm fs =>
    rw [wfB_unfold] at h
    obtain ⟨htop, hfs⟩ := andE h
    rw [wfTopB] at htop
    obtain ⟨hnd2, hall⟩ := andE htop
    obtain ⟨hnd, hid⟩ := andE hnd2
    refine ⟨(nodupB_iff _).mp hnd, ?_, ?_, hfs⟩
    · intro hc
      have hcon : (fs.map Prod.fst).contains ("id") = true := by
        rw [List.contains_eq_any_beq]
        simp only [List.any_eq_true]
        exact ⟨"id", by simpa using hc, by simp⟩
      rw [hcon] at hid
      simp at hid
    · intro n t hmem
      have := List.all_eq_true.mp hall _ hmem
      simpa using this

/-! ## Lemmas about the sqlite model -/

theorem lookupTable_commitDB (db : DBState) (k : String) :
    lookupTable (commitDB db) k = lookupTable db k := rfl

theorem lookupTableL_setTableL_ne (l : List (String × TableData)) (k k2 : String)
    (td : TableData) (h : k ≠ k2) :
    lookupTableL (setTableL l k td) k2 = lookupTableL l k2 := by
  induction l with
  | nil => rfl
  | cons p rest ih =>
    cases p with
    | mk pn ptd =>
      by_cases hp : pn = k
      · rw [setTableL, if_pos hp]
        have hpn2 : pn ≠ k2 := hp ▸ h
        rw [lookupTableL, lookupTableL, if_neg hpn2, if_neg hpn2, ih]
      · rw [setTableL, if_neg hp]
        by_cases hk2 : pn = k2
        · rw [lookupTableL, lookupTableL, if_pos hk2, if_pos hk2]
        · rw [lookupTableL, lookupTableL, if_neg hk2, if_neg hk2, ih]

theorem lookupTableL_setTableL_self (l : List (String × TableData)) (k : String)
    (td td0 : TableData) (h : lookupTableL l k = some td0) :
    lookupTableL (setTableL l k td) k = some td := by
  induction l with
  | nil => rw [lookupTableL] at h; cases h
  | cons p rest ih =>
    cases p with
    | mk pn ptd =>
      by_cases hp : pn = k
      · rw [setTableL, if_pos hp, lookupTableL, if_pos hp]
      · rw [lookupTableL, if_neg hp] at h
        rw [setTableL, if_neg hp, lookupTableL, if_neg hp]
        exact ih h

theorem lookupTable_setTable_ne (db : DBState) (k k2 : String) (td : TableData)
    (h : k ≠ k2) : lookupTable (setTable db k td) k2 = lookupTable db k2 :=
  lookupTableL_setTableL_ne db.tables k k2 td h

theorem lookupTable_setTable_self (db : DBState) (k : String) (td td0 : TableData)
    (h : lookupTable db k = some td0) :
    lookupTable (setTable db k td) k = some td :=
  lookupTableL_setTableL_self db.tables k td td0 h

theorem conformsFieldsB_congr (db db2 : DBState) (fs : List (String × FieldSpec Schema))
    (href : ∀ n r, (n, FieldSpec.foreignKey r) ∈ fs →
      conformsB db r = true → conformsB db2 r = true)
    (hc : conformsFieldsB db fs = true) : conformsFieldsB db2 fs = true := by
  induction fs with
  | nil => rfl
  | cons p rest ih =>
    cases p with
    | mk pn pf =>
      cases pf with
      | column t =>
        rw [conformsFieldsB] at hc ⊢
        exact ih (fun n r hm => href n r (List.mem_cons_of_mem _ hm)) hc
      | foreignKey r2 =>
        rw [conformsFieldsB] at hc ⊢
        obtain ⟨h1, h2⟩ := andE hc
        rw [Bool.and_eq_true]
        exact ⟨href pn r2 (List.mem_cons_self _ _) h1,
          ih (fun n r hm => href n r (List.mem_cons_of_mem _ hm)) h2⟩

/-- Updating (and committing) a table whose key appears nowhere in the
foreign-key tree of `r` preserves conformance of `r`. -/
theorem conformsB_setTable_avoid :
    ∀ (d : Nat) (r : Schema) (db : DBState) (nm : String) (td : TableData),
      r.depth ≤ d → treeAvoidsB nm r = true → conformsB db r = true →
      conformsB (commitDB (setTable db nm td)) r = true := by
  intro d
  induction d with
  | zero =>
    intro r db nm td hd _ _
    exact absurd (le_trans (depth_pos r) hd) (by simp)
  | succ d ih =>
    intro r db nm td hd ha hc
    cases r with
    | mk n fs =>
      rw [conformsB_unfold] at hc ⊢
      rw [treeAvoidsB] at ha
      obtain ⟨hne, hfa⟩ := andE ha
      obtain ⟨htab, hcf⟩ := andE hc
      have hne2 : nm ≠ pyLower n := by
        intro he
        rw [he] at hne
        simp at hne
      have hdf : depthFields fs ≤ d := by
        have heq : (Schema.mk n fs).depth = 1 + depthFields fs := by rw [Schema.depth]
        rw [heq] at hd
        omega
      rw [Bool.and_eq_true]
      refine ⟨?_, ?_⟩
      · rw [show lookupTable (commitDB (setTable db nm td)) (pyLower n) =
            lookupTable db (pyLower n) from by
          rw [lookupTable_commitDB, lookupTable_setTable_ne _ _ _ _ hne2]]
        exact htab
      · refine conformsFieldsB_congr db _ fs ?_ hcf
        intro n2 r2 hmem hcr
        exact ih r2 db nm td
          (le_trans (depth_ref_le_depthFields fs n2 r2 hmem) hdf)
          (fieldsAvoidB_ref hfa hmem) hcr

theorem sqlEq_int_int (a b : Int) : sqlEq (SqlValue.int a) (SqlValue.int b) = (a == b) := rfl

theorem sqlEq_null_right (x : SqlValue) : sqlEq x SqlValue.null = false := by
  cases x <;> rfl

theorem selectFields_contains_id (s : Schema) : (selectFields s).contains ("id") = true := by
  rw [selectFields, List.contains_cons]
  simp

/-- Executing the select that `get_by_id` issues: with the table present and a
bindable id parameter, the result is the rows whose rowid SQL-equals the bound
parameter. -/
theorem runSelect_id (db : DBState) (s : Schema) (td : TableData) (v : PyValue)
    (c : SqlValue) (ht : lookupTable db (tableKey s) = some td)
    (hb : bindPy v = Except.ok c) :
    runSelect db s [("id", v)] =
      Except.ok (td.rows.filter (fun r => sqlEq (SqlValue.int r.1) c)) := by
  rw [runSelect]
  simp only [ht]
  rw [if_pos (by simp [selectFields])]
  simp only [List.mapM_cons, List.mapM_nil, hb]
  show Except.ok _ = Except.ok _
  congr 1
  apply List.filter_congr
  intro r _
  rw [rowMatches]
  simp only [List.all_cons, List.all_nil, Bool.and_true]
  rw [cellAt, if_pos rfl]

theorem bindPy_bool (b : Bool) :
    bindPy (PyValue.bool b) = Except.ok (SqlValue.int (if b then 1 else 0)) := rfl

theorem pyEqOne_bool (b : Bool) : pyEqOne (SqlValue.int (if b then 1 else 0)) = b := by
  cases b <;> rfl

/-- For a type-correct non-boolean column value, binding succeeds and the raw
value sqlite hands back is the original Python value. -/
theorem bindPy_roundtrip {t : PyType} {v : PyValue} (hok : typeOkB t v = true)
    (hnb : t ≠ PyType.bool) : ∃ c, bindPy v = Except.ok c ∧ rawToPy c = v := by
  cases t
  case bool => exact absurd rfl hnb
  all_goals cases v <;> first
    | exact ⟨_, rfl, rfl⟩
    | simp [typeOkB] at hok

/-- A type-correct value always binds. -/
theorem bindPy_ok_of_typeOk {t : PyType} {v : PyValue} (hok : typeOkB t v = true) :
    ∃ c, bindPy v = Except.ok c := by
  cases t <;> cases v <;> first
    | exact ⟨_, rfl⟩
    | simp [typeOkB] at hok

/-! ## The materialization lemmas -/

/-- The relation between a declared field zipped with its stored cell and the
`(logical name, value)` pair that `_build_instance`'s loop produces for it,
relative to the `get_by_id` oracle `O` used for foreign keys. -/
def pairSpec (O : Schema → PyValue → Except PyErr (Option Instance)) :
    (String × FieldSpec Schema) × SqlValue → String × PyValue → Prop
  | ((n, .column t), cell), (m, v) =>
    m = n ∧ v = (if t = PyType.bool then PyValue.bool (pyEqOne cell) else rawToPy cell)
  | ((n, .foreignKey ref), cell), (m, v) =>
    m = n ∧ ∃ o, O ref (rawToPy cell) = Except.ok o ∧ v = optToPy o

theorem buildFields_spec (O : Schema → PyValue → Except PyErr (Option Instance))
    (s : Schema) (hw : wfB s = true) :
    ∀ (l : List (String × FieldSpec Schema)) (cells : List SqlValue),
      (∀ x ∈ l, x ∈ s.fields) →
      l.length = cells.length →
      (∀ n ref, (n, FieldSpec.foreignKey ref) ∈ l →
        ∀ cell : SqlValue, ∃ o, O ref (rawToPy cell) = Except.ok o) →
      ∃ pairs, buildFieldsWith O s ((l.map storageName).zip cells) = Except.ok pairs ∧
        List.Forall₂ (pairSpec O) (l.zip cells) pairs := by
  obtain ⟨hnd, hid, hcol, hfs⟩ := wfB_parts hw
  intro l
  induction l with
  | nil =>
    intro cells _ _ _
    exact ⟨[], rfl, by simp⟩
  | cons x rest ih =>
    intro cells hsub hlen horacle
    cases cells with
    | nil => cases hlen
    | cons cell cellsRest =>
      have hlen2 : rest.length = cellsRest.length := by
        simpa using hlen
      have hsub2 : ∀ y ∈ rest, y ∈ s.fields :=
        fun y hy => hsub y (List.mem_cons_of_mem x hy)
      have horacle2 : ∀ n ref, (n, FieldSpec.foreignKey ref) ∈ rest →
          ∀ cell : SqlValue, ∃ o, O ref (rawToPy cell) = Except.ok o :=
        fun n ref hm cl => horacle n ref (List.mem_cons_of_mem x hm) cl
      obtain ⟨pairs, hpairs, hrel⟩ := ih cellsRest hsub2 hlen2 horacle2
      simp only [List.zip] at hpairs
      have hxmem : x ∈ s.fields := hsub x (List.mem_cons_self x rest)
      cases x with
      | mk n f =>
        cases f with
        | column t =>
          have hsfx : hasIdSuffix n = false := hcol n t hxmem
          have hlf : lookupField s.fields n = some (FieldSpec.column t) :=
            lookupField_eq_some_of_mem s.fields n _ hnd hxmem
          by_cases ht : t = PyType.bool
          · subst ht
            refine ⟨(n, PyValue.bool (pyEqOne cell)) :: pairs, ?_, ?_⟩
            · simp only [List.map_cons, List.zip_cons_cons, buildFieldsWith, storageName,
                hsfx, Bool.false_eq_true, if_false, hlf, if_pos rfl, if_true, List.zip,
                hpairs]
              rfl
            · exact List.Forall₂.cons ⟨rfl, by simp⟩ hrel
          · refine ⟨(n, rawToPy cell) :: pairs, ?_, ?_⟩
            · simp only [List.map_cons, List.zip_cons_cons, buildFieldsWith, storageName,
                hsfx, Bool.false_eq_true, if_false, hlf, if_neg ht, List.zip, hpairs]
              rfl
            · exact List.Forall₂.cons ⟨rfl, by simp [ht]⟩ hrel
        | foreignKey ref =>
          have hsfx : hasIdSuffix (n ++ "_id") = true := hasIdSuffix_append n
          have hstrip : stripIdSuffix (n ++ "_id") = n := stripIdSuffix_append n
          have hlf : lookupField s.fields n = some (FieldSpec.foreignKey ref) :=
            lookupField_eq_some_of_mem s.fields n _ hnd hxmem
          obtain ⟨o, ho⟩ := horacle n ref (List.mem_cons_self _ _) cell
          refine ⟨(n, optToPy o) :: pairs, ?_, ?_⟩
          · simp only [List.map_cons, List.zip_cons_cons, buildFieldsWith, storageName,
              hsfx, if_pos rfl, if_true, hstrip, hlf, ho, List.zip, hpairs]
            rfl
          · exact List.Forall₂.cons ⟨rfl, o, ho, rfl⟩ hrel

theorem hasIdSuffix_id : hasIdSuffix ("id") = false := rfl

theorem bindPy_rawToPy (c : SqlValue) : bindPy (rawToPy c) = Except.ok c := by
  cases c <;> rfl

/-- Unpack the table part of `conformsB`. -/
theorem conformsB_table {db : DBState} {r : Schema} (h : conformsB db r = true) :
    ∃ td, lookupTable db (tableKey r) = some td ∧
      (∀ row ∈ td.rows, row.2.length = r.fields.length ∧ row.1 ≤ td.seq) ∧
      conformsFieldsB db r.fields = true := by
  cases r with
  | mk nm fs =>
    rw [conformsB_unfold] at h
    obtain ⟨htab, hcf⟩ := andE h
    cases hlt : lookupTable db (pyLower nm) with
    | none => rw [hlt] at htab; cases htab
    | some td =>
      rw [hlt] at htab
      refine ⟨td, hlt, ?_, hcf⟩
      intro row hrow
      have := List.all_eq_true.mp htab row hrow
      obtain ⟨h1, h2⟩ := andE this
      exact ⟨by simpa using h1, by simpa using h2⟩

/-- Each produced pair's name is the declared name of some zipped field. -/
theorem pairSpec_fst_mem {O : Schema → PyValue → Except PyErr (Option Instance)} :
    ∀ (z : List ((String × FieldSpec Schema) × SqlValue)) (pairs : List (String × PyValue)),
      List.Forall₂ (pairSpec O) z pairs → ∀ p ∈ pairs, ∃ q ∈ z, p.1 = q.1.1 := by
  intro z
  induction z with
  | nil =>
    intro pairs h p hp
    cases h
    cases hp
  | cons q0 zrest ih =>
    intro pairs h p hp
    cases h with
    | cons hr hrest =>
      rcases List.mem_cons.mp hp with he | hm
      · subst he
        refine ⟨q0, List.mem_cons_self _ _, ?_⟩
        obtain ⟨⟨n, f⟩, cell⟩ := q0
        cases p with
        | mk m v =>
          cases f with
          | column t => exact hr.1
          | foreignKey ref => exact hr.1
      · obtain ⟨q, hq, he2⟩ := ih _ hrest p hm
        exact ⟨q, List.mem_cons_of_mem _ hq, he2⟩

/-- `get_by_id` with enough fuel, on a well-formed schema whose tables conform:
never an exception; no matching row gives `none`; a first matching row gives an
instance whose `id` attribute is that row's rowid. -/
theorem get_by_idF_spec (fuel : Nat) :
    ∀ (s : Schema) (db : DBState) (v : PyValue) (c : SqlValue) (td : TableData),
      wfB s = true → conformsB db s = true → s.depth ≤ fuel →
      bindPy v = Except.ok c →
      lookupTable db (tableKey s) = some td →
      ∃ res, get_by_idF fuel db s v = Except.ok res ∧
        ((td.rows.filter (fun r => sqlEq (SqlValue.int r.1) c)) = [] →
          res = Option.none) ∧
        (∀ r0 rest2,
          (td.rows.filter (fun r => sqlEq (SqlValue.int r.1) c)) = r0 :: rest2 →
          ∃ data, res = some data ∧ lookupPy data ("id") = some (PyValue.int r0.1)) := by
  induction fuel with
  | zero =>
    intro s db v c td hw hc hd hb ht
    exact absurd (le_trans (depth_pos s) hd) (by simp)
  | succ fuel ih =>
    intro s db v c td hw hc hd hb ht
    rw [get_by_idF]
    rw [runSelect_id db s td v c ht hb]
    cases hfil : td.rows.filter (fun r => sqlEq (SqlValue.int r.1) c) with
    | nil =>
      refine ⟨Option.none, ?_, fun _ => rfl, ?_⟩
      · show Except.ok _ = _
        rfl
      · intro r0 rest2 habs
        exact List.noConfusion habs
    | cons r0 rest2 =>
      -- the selected row is well-shaped
      obtain ⟨tdx, htx, hshape, hcf⟩ := conformsB_table hc
      rw [ht] at htx
      cases htx
      have hr0mem : r0 ∈ td.rows := by
        have hmem0 : r0 ∈ td.rows.filter (fun r => sqlEq (SqlValue.int r.1) c) := by
          rw [hfil]
          exact List.mem_cons_self _ _
        exact (List.mem_filter.mp hmem0).1
      have hr0len : r0.2.length = s.fields.length := (hshape r0 hr0mem).1
      obtain ⟨hnd, hid, hcol, hfs⟩ := wfB_parts hw
      have hdf : depthFields s.fields ≤ fuel := by
        have heq : s.depth = 1 + depthFields s.fields := by
          cases s with
          | mk nm fs =>
            rw [Schema.depth]
            rfl
        rw [heq] at hd
        omega
      -- the nested oracle succeeds on every foreign key of the schema
      have horacle : ∀ n ref, (n, FieldSpec.foreignKey ref) ∈ sortFields s.fields →
          ∀ cell : SqlValue, ∃ o,
            (fun t v2 => get_by_idF fuel db t v2) ref (rawToPy cell) = Except.ok o := by
        intro n ref hmem cell
        have hmem2 : (n, FieldSpec.foreignKey ref) ∈ s.fields := mem_of_mem_sortFields hmem
        have hwref : wfB ref = true := wfFieldsB_ref hfs hmem2
        have hcref : conformsB db ref = true := conformsFieldsB_ref hcf hmem2
        obtain ⟨tdr, htdr, _, _⟩ := conformsB_table hcref
        obtain ⟨res, hres, _, _⟩ := ih ref db (rawToPy cell) cell tdr hwref hcref
          (le_trans (depth_ref_le_depthFields s.fields n ref hmem2) hdf)
          (bindPy_rawToPy cell) htdr
        exact ⟨res, hres⟩
      have hlen : (sortFields s.fields).length = r0.2.length := by
        rw [hr0len]
        exact (sortFields_perm s.fields).length_eq
      obtain ⟨pairs, hpairs, hrel⟩ :=
        buildFields_spec _ s hw (sortFields s.fields) r0.2
          (fun x hx => mem_of_mem_sortFields hx) hlen horacle
      -- names of the produced pairs avoid "id"
      have hnotid : "id" ∉ pairs.map Prod.fst := by
        intro hmem
        obtain ⟨p, hp, hpe⟩ := List.mem_map.mp hmem
        obtain ⟨q, hq, he⟩ := pairSpec_fst_mem _ _ hrel p hp
        have hq1 : q.1 ∈ sortFields s.fields := (List.of_mem_zip hq).1
        have hmm : q.1.1 ∈ s.fields.map Prod.fst :=
          List.mem_map_of_mem Prod.fst (mem_of_mem_sortFields hq1)
        rw [← he, hpe] at hmm
        exact hid hmm
      -- assemble the instance
      refine ⟨some (setPys [("id", PyValue.none)] (("id", PyValue.int r0.1) :: pairs)),
        ?_, ?_, ?_⟩
      · show (do
          let inst ← buildInstanceWith (fun t v2 => get_by_idF fuel db t v2)
            (selectFields s) (SqlValue.int r0.1 :: r0.2) s
          Except.ok (some inst)) = _
        rw [buildInstanceWith]
        simp only [selectFields, List.zip_cons_cons, buildFieldsWith, hasIdSuffix_id,
          Bool.false_eq_true, if_false, lookupField_eq_none s.fields ("id") hid]
        rw [show buildFieldsWith (fun t v2 => get_by_idF fuel db t v2) s
            (List.zipWith Prod.mk (List.map storageName (sortFields s.fields)) r0.2) =
            Except.ok pairs from hpairs]
        rfl
      · intro habs
        exact List.noConfusion habs
      · intro r1 rest3 heq
        injection heq with h1 h2
        subst h1
        refine ⟨_, rfl, ?_⟩
        rw [setPys]
        rw [lookupPy_setPys_not_mem pairs _ _ hnotid]
        rw [show setPy [("id", PyValue.none)] ("id") (PyValue.int r0.1) =
          [("id", PyValue.int r0.1)] from rfl]
        rw [lookupPy]
        simp

/-! ## The save path -/

/-- The `(storage name, Python value)` entry `_get_insert_sql` emits for one
declared field of an instance (total, with junk defaults on the error paths). -/
def entryOf (inst : Instance) : String × FieldSpec Schema → String × PyValue
  | (n, .column _) => (n, (lookupPy inst n).getD PyValue.none)
  | (n, .foreignKey _) =>
    (n ++ "_id",
     match lookupPy inst n with
     | some (.obj d) => (lookupPy d ("id")).getD PyValue.none
     | _ => PyValue.none)

/-- Total version of parameter binding (junk default on the error path). -/
def bindD (v : PyValue) : SqlValue :=
  match bindPy v with
  | Except.ok c => c
  | Except.error _ => SqlValue.null

/-- The cell that saving `inst` stores for one declared field. -/
def cellOf (inst : Instance) (x : String × FieldSpec Schema) : SqlValue :=
  bindD (entryOf inst x).2

theorem elemOkB_column {db : DBState} {inst : Instance} {n : String} {t : PyType}
    (h : elemOkB db inst (n, FieldSpec.column t) = true) :
    ∃ v, lookupPy inst n = some v ∧ typeOkB t v = true := by
  rw [elemOkB] at h
  cases hl : lookupPy inst n with
  | none => rw [hl] at h; cases h
  | some v =>
    rw [hl] at h
    exact ⟨v, rfl, h⟩

theorem elemOkB_fk {db : DBState} {inst : Instance} {n : String} {ref : Schema}
    (h : elemOkB db inst (n, FieldSpec.foreignKey ref) = true) :
    ∃ d rid td, lookupPy inst n = some (PyValue.obj d) ∧
      lookupPy d ("id") = some (PyValue.int rid) ∧
      lookupTable db (tableKey ref) = some td ∧ ∃ r ∈ td.rows, r.1 = rid := by
  rw [elemOkB] at h
  cases hl : lookupPy inst n with
  | none =>
    rw [hl] at h
    simp at h
  | some v =>
    rw [hl] at h
    cases v with
    | obj d =>
      dsimp only at h
      cases hdid : lookupPy d ("id") with
      | none =>
        rw [hdid] at h
        simp at h
      | some idv =>
        rw [hdid] at h
        cases idv with
        | int rid =>
          dsimp only at h
          cases htd : lookupTable db (tableKey ref) with
          | none =>
            rw [htd] at h
            simp at h
          | some td =>
            rw [htd] at h
            dsimp only at h
            obtain ⟨r, hr, hre⟩ := List.any_eq_true.mp h
            exact ⟨d, rid, td, rfl, hdid, rfl, r, hr, by simpa using hre⟩
        | none => simp at h
        | bool b => simp at h
        | float bits => simp at h
        | str s2 => simp at h
        | bytes bs => simp at h
        | obj d2 => simp at h
    | none => simp at h
    | int n2 => simp at h
    | bool b => simp at h
    | float bits => simp at h
    | str s2 => simp at h
    | bytes bs => simp at h

/-- On an `elemOkB` field, the per-field body of `_get_insert_sql` succeeds and
produces `entryOf`. -/
theorem insert_entry_ok {db : DBState} {inst : Instance}
    (x : String × FieldSpec Schema) (hok : elemOkB db inst x = true) :
    (match x with
      | (n, FieldSpec.column _) =>
        match lookupPy inst n with
        | some v => Except.ok (n, v)
        | Option.none => Except.error PyErr.interfaceError
      | (n, FieldSpec.foreignKey _) =>
        match lookupPy inst n with
        | some (.obj d) =>
          match lookupPy d ("id") with
          | some v => Except.ok (n ++ "_id", v)
          | Option.none => Except.error PyErr.attributeError
        | _ => Except.error PyErr.attributeError) = Except.ok (entryOf inst x) := by
  obtain ⟨n, f⟩ := x
  cases f with
  | column t =>
    obtain ⟨v, hl, _⟩ := elemOkB_column hok
    dsimp only
    rw [hl, entryOf, hl]
    rfl
  | foreignKey ref =>
    obtain ⟨d, rid, td, hl, hdid, _, _⟩ := elemOkB_fk hok
    dsimp only
    rw [hl]
    dsimp only
    rw [hdid, entryOf, hl]
    dsimp only
    rw [hdid]
    rfl

/-- On an `elemOkB` field, the emitted value binds to `cellOf`. -/
theorem insert_value_binds {db : DBState} {inst : Instance}
    (x : String × FieldSpec Schema) (hok : elemOkB db inst x = true) :
    bindPy (entryOf inst x).2 = Except.ok (cellOf inst x) := by
  obtain ⟨n, f⟩ := x
  cases f with
  | column t =>
    obtain ⟨v, hl, htv⟩ := elemOkB_column hok
    obtain ⟨c, hc⟩ := bindPy_ok_of_typeOk htv
    rw [cellOf, entryOf, hl]
    show bindPy v = _
    rw [hc, bindD]
    show _ = Except.ok (match bindPy v with | Except.ok c => c | Except.error _ => SqlValue.null)
    rw [hc]
  | foreignKey ref =>
    obtain ⟨d, rid, td, hl, hdid, _, _⟩ := elemOkB_fk hok
    rw [cellOf, entryOf, hl]
    dsimp only
    rw [hdid]
    rfl

/-- `Database.save` on a ready instance with its table present: appends the row
`(seq+1, cells)`, bumps the sequence, commits, and sets the instance's `id`. -/
theorem save_spec (db : DBState) (s : Schema) (inst : Instance) (td : TableData)
    (hok : instOkB db inst s.fields = true)
    (ht : lookupTable db (tableKey s) = some td) :
    Database.save db s inst = Except.ok
      (commitDB (setTable db (tableKey s)
        ⟨td.rows ++ [(td.seq + 1, (sortFields s.fields).map (cellOf inst))], td.seq + 1⟩),
       setPy inst ("id") (PyValue.int (td.seq + 1))) := by
  have hoks : ∀ x ∈ sortFields s.fields, elemOkB db inst x = true := by
    intro x hx
    exact List.all_eq_true.mp hok x (mem_of_mem_sortFields hx)
  have hins : _get_insert_sql s inst =
      Except.ok
        ("INSERT INTO " ++ pyLower s.name ++ " (" ++
           String.intercalate (", ") (((sortFields s.fields).map (entryOf inst)).map Prod.fst) ++
           ") VALUES (" ++
           String.intercalate (", ")
             ((((sortFields s.fields).map (entryOf inst)).map Prod.fst).map (fun _ => "?")) ++ ")",
         ((sortFields s.fields).map (entryOf inst)).map Prod.snd) := by
    rw [_get_insert_sql]
    rw [mapM_ok (sortFields s.fields) _ (entryOf inst)
      (fun x hx => insert_entry_ok x (hoks x hx))]
    rfl
  have hall : ∀ v ∈ ((sortFields s.fields).map (entryOf inst)).map Prod.snd,
      bindPy v = Except.ok (bindD v) := by
    intro v hv
    obtain ⟨e, he, hve⟩ := List.mem_map.mp hv
    obtain ⟨x, hx, hxe⟩ := List.mem_map.mp he
    subst hve
    subst hxe
    exact insert_value_binds x (hoks x hx)
  have hmaps : (((sortFields s.fields).map (entryOf inst)).map Prod.snd).map bindD =
      (sortFields s.fields).map (cellOf inst) := by
    rw [List.map_map, List.map_map]
    rfl
  have hcells : (((sortFields s.fields).map (entryOf inst)).map Prod.snd).mapM bindPy =
      Except.ok ((sortFields s.fields).map (cellOf inst)) := by
    rw [mapM_ok _ bindPy bindD hall, hmaps]
  rw [Database.save, hins]
  show (do
    let cells ← (((sortFields s.fields).map (entryOf inst)).map Prod.snd).mapM bindPy
    match lookupTable db (tableKey s) with
    | Option.none => Except.error PyErr.operationalError
    | some td2 =>
      let newId := td2.seq + 1
      Except.ok (commitDB (setTable db (tableKey s) ⟨td2.rows ++ [(newId, cells)], newId⟩),
        setPy inst ("id") (PyValue.int newId))) = _
  rw [hcells, ht]
  rfl

theorem zip_map_self {α β : Type} (g : α → β) (l : List α) :
    l.zip (l.map g) = l.map (fun x => (x, g x)) := by
  induction l with
  | nil => rfl
  | cons x xs ih => simp [ih]

theorem forall2_pairSpec_fst {O : Schema → PyValue → Except PyErr (Option Instance)}
    {g : (String × FieldSpec Schema) → SqlValue} :
    ∀ (l : List (String × FieldSpec Schema)) (pairs : List (String × PyValue)),
      List.Forall₂ (fun x p => pairSpec O (x, g x) p) l pairs →
      pairs.map Prod.fst = l.map Prod.fst := by
  intro l
  induction l with
  | nil =>
    intro pairs h
    cases h
    rfl
  | cons x0 lrest ih =>
    intro pairs h
    cases h with
    | cons hr hrest =>
      rename_i p0 pairsRest
      obtain ⟨n0, f0⟩ := x0
      obtain ⟨m0, v0⟩ := p0
      have hm0 : m0 = n0 := by
        cases f0 with
        | column t => exact hr.1
        | foreignKey ref => exact hr.1
      simp only [List.map_cons, hm0, ih pairsRest hrest]

/-- Final attribute values after `setPys` of pairs related by `pairSpec` to a
nodup-named field list. -/
theorem setPys_values {O : Schema → PyValue → Except PyErr (Option Instance)}
    {g : (String × FieldSpec Schema) → SqlValue} :
    ∀ (l : List (String × FieldSpec Schema)) (pairs : List (String × PyValue))
      (base : Instance),
      (l.map Prod.fst).Nodup →
      List.Forall₂ (fun x p => pairSpec O (x, g x) p) l pairs →
      ∀ n spec, (n, spec) ∈ l →
        ∃ v, lookupPy (setPys base pairs) n = some v ∧
          pairSpec O ((n, spec), g (n, spec)) (n, v) := by
  intro l
  induction l with
  | nil =>
    intro pairs base _ h n spec hmem
    cases hmem
  | cons x0 lrest ih =>
    intro pairs base hnd h n spec hmem
    cases h with
    | cons hr hrest =>
      rename_i p0 pairsRest
      obtain ⟨n0, f0⟩ := x0
      obtain ⟨m0, v0⟩ := p0
      have hm0 : m0 = n0 := by
        cases f0 with
        | column t => exact hr.1
        | foreignKey ref => exact hr.1
      subst hm0
      simp only [List.map_cons, List.nodup_cons] at hnd
      rcases List.mem_cons.mp hmem with he | hm
      · have hn : n = m0 := by
          have := congrArg Prod.fst he
          exact this
        have hf : spec = f0 := by
          have := congrArg Prod.snd he
          exact this
        subst hn
        subst hf
        refine ⟨v0, ?_, ?_⟩
        · rw [setPys]
          rw [lookupPy_setPys_not_mem pairsRest _ _ (by
            rw [forall2_pairSpec_fst lrest pairsRest hrest]
            exact hnd.1)]
          exact lookupPy_setPy_self base n v0
        · exact hr
      · rw [setPys]
        exact ih pairsRest _ hnd.2 hrest n spec hm

theorem treeAvoids_root {nm : String} {r : Schema} (h : treeAvoidsB nm r = true) :
    tableKey r ≠ nm := by
  cases r with
  | mk n fs =>
    rw [treeAvoidsB] at h
    have := (andE h).1
    simpa [tableKey, Schema.name] using this

theorem typeOkB_bool {w : PyValue} (h : typeOkB PyType.bool w = true) :
    ∃ b, w = PyValue.bool b := by
  cases w <;> simp [typeOkB] at h <;> exact ⟨_, rfl⟩

theorem cellOf_fk {inst : Instance} {n : String} {ref : Schema}
    {d : List (String × PyValue)} {rid : Int}
    (hl : lookupPy inst n = some (PyValue.obj d))
    (hdid : lookupPy d ("id") = some (PyValue.int rid)) :
    cellOf inst (n, FieldSpec.foreignKey ref) = SqlValue.int rid := by
  rw [cellOf, entryOf, hl]
  dsimp only
  rw [hdid]
  rfl

theorem depth_eq (s : Schema) : s.depth = 1 + depthFields s.fields := by
  cases s with
  | mk nm fs =>
    rw [Schema.depth]
    rfl

/-- **C3.** Round-trip: an instance with type-correct field values and
persistent foreign-key referents, saved into its (present, conforming) table,
then fetched back by the id that `save` assigned, reproduces every declared
field: column values are equal (booleans as booleans), and each foreign-key
field holds a nested instance with the same referenced id. -/
theorem C3_save_get_by_id_roundtrip (db : DBState) (s : Schema) (inst : Instance)
    (td : TableData)
    (hw : wfB s = true)
    (hc : conformsB db s = true)
    (hfresh : fieldsAvoidB (tableKey s) s.fields = true)
    (ht : lookupTable db (tableKey s) = some td)
    (hok : instOkB db inst s.fields = true) :
    ∃ db2 inst2 ret,
      Database.save db s inst = Except.ok (db2, inst2) ∧
      lookupPy inst2 ("id") = some (PyValue.int (td.seq + 1)) ∧
      Database.get_by_id db2 s (PyValue.int (td.seq + 1)) = Except.ok (some ret) ∧
      (∀ n t, (n, FieldSpec.column t) ∈ s.fields → lookupPy ret n = lookupPy inst n) ∧
      (∀ n b, (n, FieldSpec.column PyType.bool) ∈ s.fields →
        lookupPy inst n = some (PyValue.bool b) →
        lookupPy ret n = some (PyValue.bool b)) ∧
      (∀ n ref, (n, FieldSpec.foreignKey ref) ∈ s.fields →
        ∃ rid dOrig dRet,
          lookupPy inst n = some (PyValue.obj dOrig) ∧
          lookupPy dOrig ("id") = some (PyValue.int rid) ∧
          lookupPy ret n = some (PyValue.obj dRet) ∧
          lookupPy dRet ("id") = some (PyValue.int rid)) := by
  obtain ⟨hnd, hid, hcol, hfs⟩ := wfB_parts hw
  obtain ⟨tdx, htx, hshape, hcf⟩ := conformsB_table hc
  rw [ht] at htx
  cases htx
  set newId := td.seq + 1 with hnewId
  set cells := (sortFields s.fields).map (cellOf inst) with hcells
  set td2 : TableData := ⟨td.rows ++ [(newId, cells)], newId⟩ with htd2
  set db2 := commitDB (setTable db (tableKey s) td2) with hdb2
  have hsave := save_spec db s inst td hok ht
  have ht2 : lookupTable db2 (tableKey s) = some td2 :=
    lookupTable_setTable_self db (tableKey s) td2 td ht
  -- conformance of every referenced schema survives the table update
  have hpres : ∀ n ref, (n, FieldSpec.foreignKey ref) ∈ s.fields →
      conformsB db2 ref = true := by
    intro n ref hmem
    exact conformsB_setTable_avoid ref.depth ref db (tableKey s) td2 le_rfl
      (fieldsAvoidB_ref hfresh hmem) (conformsFieldsB_ref hcf hmem)
  -- depth bookkeeping
  have hdepth : s.depth = 1 + depthFields s.fields := depth_eq s
  obtain ⟨k, hk⟩ : ∃ k, s.depth = k + 1 := ⟨s.depth - 1, by
    have := depth_pos s
    omega⟩
  have hkdf : depthFields s.fields ≤ k := by omega
  -- the oracle used at this fuel level succeeds on every foreign key
  have horacle : ∀ n ref, (n, FieldSpec.foreignKey ref) ∈ sortFields s.fields →
      ∀ cell : SqlValue, ∃ o,
        (fun t v2 => get_by_idF k db2 t v2) ref (rawToPy cell) = Except.ok o := by
    intro n ref hmem cell
    have hmem2 := mem_of_mem_sortFields hmem
    have hwref : wfB ref = true := wfFieldsB_ref hfs hmem2
    have hcref : conformsB db2 ref = true := hpres n ref hmem2
    obtain ⟨tdr, htdr, _, _⟩ := conformsB_table hcref
    obtain ⟨res, hres, _, _⟩ := get_by_idF_spec k ref db2 (rawToPy cell) cell tdr
      hwref hcref (le_trans (depth_ref_le_depthFields s.fields n ref hmem2) hkdf)
      (bindPy_rawToPy cell) htdr
    exact ⟨res, hres⟩
  have hlen : (sortFields s.fields).length = cells.length := by
    rw [hcells, List.length_map]
  obtain ⟨pairs, hpairs, hrel⟩ :=
    buildFields_spec (fun t v2 => get_by_idF k db2 t v2) s hw (sortFields s.fields) cells
      (fun x hx => mem_of_mem_sortFields hx) hlen horacle
  have hrel2 : List.Forall₂
      (fun x p => pairSpec (fun t v2 => get_by_idF k db2 t v2) (x, cellOf inst x) p)
      (sortFields s.fields) pairs := by
    rw [hcells] at hrel
    rw [zip_map_self (cellOf inst) (sortFields s.fields)] at hrel
    exact List.forall₂_map_left_iff.mp hrel
  have hnotid : "id" ∉ pairs.map Prod.fst := by
    rw [forall2_pairSpec_fst _ _ hrel2]
    intro hmm
    obtain ⟨q, hq, he⟩ := List.mem_map.mp hmm
    exact hid (by
      rw [← he]
      exact List.mem_map_of_mem Prod.fst (mem_of_mem_sortFields hq))
  set ret := setPys [("id", PyValue.int newId)] pairs with hret
  -- the filter picks out exactly the fresh row
  have hfilter : td2.rows.filter (fun r => sqlEq (SqlValue.int r.1) (SqlValue.int newId)) =
      [(newId, cells)] := by
    rw [htd2]
    show (td.rows ++ [(newId, cells)]).filter _ = _
    rw [List.filter_append]
    rw [List.filter_eq_nil.mpr (by
      intro r hr
      have hle := (hshape r hr).2
      simp only [sqlEq_int_int]
      simp only [beq_iff_eq]
      omega)]
    simp [sqlEq_int_int]
  -- run get_by_id
  have hget : Database.get_by_id db2 s (PyValue.int newId) = Except.ok (some ret) := by
    rw [Database.get_by_id, hk, get_by_idF]
    rw [runSelect_id db2 s td2 (PyValue.int newId) (SqlValue.int newId) ht2 rfl]
    rw [hfilter]
    show (do
      let inst3 ← buildInstanceWith (fun t v2 => get_by_idF k db2 t v2)
        (selectFields s) (SqlValue.int newId :: cells) s
      Except.ok (some inst3)) = _
    rw [buildInstanceWith]
    simp only [selectFields, List.zip_cons_cons, buildFieldsWith, hasIdSuffix_id,
      Bool.false_eq_true, if_false, lookupField_eq_none s.fields ("id") hid]
    rw [show buildFieldsWith (fun t v2 => get_by_idF k db2 t v2) s
        (List.zipWith Prod.mk (List.map storageName (sortFields s.fields)) cells) =
        Except.ok pairs from hpairs]
    show Except.ok (some (setPys (setPy [("id", PyValue.none)] ("id")
      (rawToPy (SqlValue.int newId))) pairs)) = _
    rfl
  -- the per-field values
  have hvals := setPys_values (sortFields s.fields) pairs
    [("id", PyValue.int newId)] (sortFields_map_fst_nodup hnd) hrel2
  refine ⟨db2, setPy inst ("id") (PyValue.int newId), ret, hsave,
    lookupPy_setPy_self inst ("id") (PyValue.int newId), hget, ?_, ?_, ?_⟩
  · -- columns reproduce the original value
    intro n t hmem
    obtain ⟨v, hv, hps⟩ := hvals n (FieldSpec.column t)
      ((sortFields_perm s.fields).mem_iff.mpr hmem)
    obtain ⟨w, hw2, htv⟩ := elemOkB_column (List.all_eq_true.mp hok _ hmem)
    have hcell : cellOf inst (n, FieldSpec.column t) = bindD w := by
      rw [cellOf, entryOf, hw2]
      rfl
    rw [hv, hw2]
    by_cases ht2 : t = PyType.bool
    · subst ht2
      obtain ⟨b, hb⟩ := typeOkB_bool htv
      subst hb
      have : v = PyValue.bool b := by
        have hps2 := hps.2
        rw [if_pos rfl] at hps2
        rw [hps2, hcell]
        show PyValue.bool (pyEqOne (SqlValue.int (if b then 1 else 0))) = _
        rw [pyEqOne_bool]
      rw [this]
    · obtain ⟨c, hbc, hraw⟩ := bindPy_roundtrip htv ht2
      have : v = w := by
        have hps2 := hps.2
        rw [if_neg ht2] at hps2
        rw [hps2, hcell, bindD, hbc, hraw]
      rw [this]
  · -- boolean columns reproduce the boolean
    intro n b hmem hl
    obtain ⟨v, hv, hps⟩ := hvals n (FieldSpec.column PyType.bool)
      ((sortFields_perm s.fields).mem_iff.mpr hmem)
    have hcell : cellOf inst (n, FieldSpec.column PyType.bool) =
        SqlValue.int (if b then 1 else 0) := by
      rw [cellOf, entryOf, hl]
      rfl
    have hps2 := hps.2
    rw [if_pos rfl] at hps2
    rw [hv, hps2, hcell, pyEqOne_bool]
  · -- foreign keys land on an instance with the same referenced id
    intro n ref hmem
    obtain ⟨v, hv, hps⟩ := hvals n (FieldSpec.foreignKey ref)
      ((sortFields_perm s.fields).mem_iff.mpr hmem)
    obtain ⟨dOrig, rid, tdr, hl, hdid, htdr, r, hrmem, hrid⟩ :=
      elemOkB_fk (List.all_eq_true.mp hok _ hmem)
    have hcell : cellOf inst (n, FieldSpec.foreignKey ref) = SqlValue.int rid :=
      cellOf_fk hl hdid
    obtain ⟨o, ho, hvo⟩ := hps.2
    -- the referenced table is untouched by the save
    have hne : tableKey s ≠ tableKey ref :=
      fun he => (treeAvoids_root (fieldsAvoidB_ref hfresh hmem)) he.symm
    have htdr2 : lookupTable db2 (tableKey ref) = some tdr := by
      rw [hdb2, lookupTable_commitDB, lookupTable_setTable_ne _ _ _ _ hne]
      exact htdr
    have hwref : wfB ref = true := wfFieldsB_ref hfs hmem
    have hcref : conformsB db2 ref = true := hpres n ref hmem
    obtain ⟨res, hres, hnone, hsome⟩ := get_by_idF_spec k ref db2
      (PyValue.int rid) (SqlValue.int rid) tdr hwref hcref
      (le_trans (depth_ref_le_depthFields s.fields n ref hmem) hkdf) rfl htdr2
    have hoeq : o = res := by
      have ho2 : get_by_idF k db2 ref (PyValue.int rid) = Except.ok o := by
        rw [← ho, hcell]
        rfl
      exact Except.ok.inj (ho2.symm.trans hres)
    cases hfl : tdr.rows.filter (fun r2 => sqlEq (SqlValue.int r2.1) (SqlValue.int rid)) with
    | nil =>
      exact absurd (List.filter_eq_nil.mp hfl r hrmem)
        (by simp [sqlEq_int_int, hrid])
    | cons r1 rest1 =>
      obtain ⟨dRet, hdRet, hdRetId⟩ := hsome r1 rest1 hfl
      have hr1 : r1.1 = rid := by
        have : r1 ∈ tdr.rows.filter (fun r2 => sqlEq (SqlValue.int r2.1) (SqlValue.int rid)) := by
          rw [hfl]
          exact List.mem_cons_self _ _
        have := (List.mem_filter.mp this).2
        simpa [sqlEq_int_int] using this
      refine ⟨rid, dOrig, dRet, hl, hdid, ?_, ?_⟩
      · rw [hv, hvo, hoeq, hdRet]
        rfl
      · rw [hdRetId, hr1]

/-! ## Concrete fixtures (the record types of tests/conftest.py) -/

/-- `class Author(Table): name = Column(str); age = Column(int)` — note the
declaration order `name`, `age`. -/
def authorS : Schema := .mk "Author" [("name", .column .str), ("age", .column .int)]

/-- `class Book(Table): title = Column(str); published = Column(bool);
author = ForeignKey(Author)`. -/
def bookS : Schema :=
  .mk "Book"
    [("title", .column .str), ("published", .column .bool), ("author", .foreignKey authorS)]

/-- A database with an `author` table holding the row `(1, age 33, name "X")`
and an empty `book` table. -/
def db0 : DBState :=
  ⟨[("author", ⟨[(1, [SqlValue.int 33, SqlValue.text "X"])], 1⟩), ("book", ⟨[], 0⟩)], 0⟩

/-- An in-memory Book instance referencing the persistent author row 1. -/
def bookInst : Instance :=
  [("id", PyValue.none), ("title", PyValue.str "T"), ("published", PyValue.bool true),
   ("author", PyValue.obj
     [("id", PyValue.int 1), ("age", PyValue.int 33), ("name", PyValue.str "X")])]

/-! ## The claims -/

/-- **C1 counterexample.** The claim asserts the declared fields appear in
declaration order.  For `Author`, declared `name` then `age`, the claimed
declaration-order DDL is not what `_get_create_sql` produces: the fields come
out in alphabetical order (`inspect.getmembers` sorts members by name). -/
theorem C1_declaration_order_counterexample :
    _get_create_sql authorS ≠
      "CREATE TABLE IF NOT EXISTS author (id INTEGER PRIMARY KEY AUTOINCREMENT, name TEXT, age INTEGER)" ∧
    _get_create_sql authorS =
      "CREATE TABLE IF NOT EXISTS author (id INTEGER PRIMARY KEY AUTOINCREMENT, age INTEGER, name TEXT)" :=
  ⟨by decide, by decide⟩

/-- **C1 (amended).** For every record type with distinct field names, the
create statement is the DDL text
`CREATE TABLE IF NOT EXISTS <table> (id INTEGER PRIMARY KEY AUTOINCREMENT, ...)`
with a leading `id` primary-key column, every declared field rendered exactly
once, in ascending alphabetical order of attribute name (not declaration
order), and each ForeignKey field rendered as `<field>_id INTEGER`. -/
theorem C1_create_statement (s : Schema) (hnd : (s.fields.map Prod.fst).Nodup) :
    _get_create_sql s =
      "CREATE TABLE IF NOT EXISTS " ++ pyLower s.name ++ " (" ++
        String.intercalate (", ")
          ("id INTEGER PRIMARY KEY AUTOINCREMENT" :: (sortFields s.fields).map renderField) ++
        ")" ∧
    (sortFields s.fields).Perm s.fields ∧
    List.Pairwise fieldLe (sortFields s.fields) ∧
    (∀ x ∈ s.fields, (sortFields s.fields).countP (fun y => y.1 == x.1) = 1) ∧
    (∀ n ref, (n, FieldSpec.foreignKey ref) ∈ s.fields →
      (n ++ "_id INTEGER") ∈ (sortFields s.fields).map renderField) := by
  refine ⟨rfl, sortFields_perm s.fields, List.sorted_insertionSort fieldLe s.fields,
    ?_, ?_⟩
  · intro x hx
    rw [(sortFields_perm s.fields).countP_eq]
    have h1 : s.fields.countP (fun y => y.1 == x.1) =
        (s.fields.map Prod.fst).countP (fun y => y == x.1) := by
      rw [List.countP_map]
      rfl
    rw [h1]
    have h2 : (s.fields.map Prod.fst).countP (fun y => y == x.1) =
        (s.fields.map Prod.fst).count x.1 := by
      rw [List.count]
    rw [h2]
    exact List.count_eq_one_of_mem hnd (List.mem_map_of_mem Prod.fst hx)
  · intro n ref hmem
    exact List.mem_map.mpr ⟨(n, FieldSpec.foreignKey ref),
      (sortFields_perm s.fields).mem_iff.mpr hmem, rfl⟩

/-- Witness for C1 (amended) at the `Author` record type. -/
theorem C1_create_statement_witness :
    (authorS.fields.map Prod.fst).Nodup ∧
    (_get_create_sql authorS =
      "CREATE TABLE IF NOT EXISTS " ++ pyLower authorS.name ++ " (" ++
        String.intercalate (", ")
          ("id INTEGER PRIMARY KEY AUTOINCREMENT" :: (sortFields authorS.fields).map renderField) ++
        ")" ∧
    (sortFields authorS.fields).Perm authorS.fields ∧
    List.Pairwise fieldLe (sortFields authorS.fields) ∧
    (∀ x ∈ authorS.fields, (sortFields authorS.fields).countP (fun y => y.1 == x.1) = 1) ∧
    (∀ n ref, (n, FieldSpec.foreignKey ref) ∈ authorS.fields →
      (n ++ "_id INTEGER") ∈ (sortFields authorS.fields).map renderField)) :=
  ⟨by decide, C1_create_statement authorS (by decide)⟩

/-- **C2 (code bug).** `QueryObject.__init__` sets `_filter_data = None` and
`execute` unpacks `**self._filter_data`; when `where` was never called —
however many `order_by`/`limit` calls were chained — `execute` raises
`TypeError` instead of running the unfiltered select. -/
theorem C2_execute_without_where_raises (db : DBState) (s : Schema)
    (c : String) (d : Bool) (cnt : Option Int) :
    QueryObject.execute db (Database.get s) = Except.error PyErr.typeError ∧
    QueryObject.execute db (((Database.get s).order_by c d).limit cnt) =
      Except.error PyErr.typeError := by
  refine ⟨rfl, ?_⟩
  cases d <;> cases cnt <;> rfl

/-- **C7.** The logical-type-to-storage-type mapping is exactly
integer→INTEGER, real→REAL, text→TEXT, binary→BLOB, boolean→INTEGER, and
`Column.sql_type` reproduces it for every declared `Column`. -/
theorem C7_type_map :
    SQLITE_TYPE_MAP PyType.int = "INTEGER" ∧ SQLITE_TYPE_MAP PyType.float = "REAL" ∧
    SQLITE_TYPE_MAP PyType.str = "TEXT" ∧ SQLITE_TYPE_MAP PyType.bytes = "BLOB" ∧
    SQLITE_TYPE_MAP PyType.bool = "INTEGER" ∧
    ∀ c : Column, c.sql_type = SQLITE_TYPE_MAP c.type :=
  ⟨rfl, rfl, rfl, rfl, rfl, fun _ => rfl⟩

/-- **C4.** Row materialization applies its rules in priority order per field:
(1) a `_id`-suffixed name strips the suffix, looks up the ForeignKey
descriptor, and recursively calls `get_by_id` on the referenced type — the
field holds the nested instance, or null when the stored id is null, never a
bare integer; (2) otherwise a boolean Column converts the stored value by
comparing it with 1; (3) otherwise the raw value is assigned unchanged.
(Exercised here on single-field rows of the shared `_build_instance`.) -/
theorem C4_build_instance_rules (db : DBState) (s : Schema)
    (f1 : String) (v1 : SqlValue) (ref : Schema)
    (f2 : String) (v2 : SqlValue) (f3 : String) (v3 : SqlValue) (t3 : PyType)
    (h1s : hasIdSuffix f1 = true)
    (h1l : lookupField s.fields (stripIdSuffix f1) = some (FieldSpec.foreignKey ref))
    (h1w : wfB ref = true) (h1c : conformsB db ref = true)
    (h2s : hasIdSuffix f2 = false)
    (h2l : lookupField s.fields f2 = some (FieldSpec.column PyType.bool))
    (h3s : hasIdSuffix f3 = false)
    (h3l : lookupField s.fields f3 = Option.none ∨
      (lookupField s.fields f3 = some (FieldSpec.column t3) ∧ t3 ≠ PyType.bool)) :
    (∃ o, Database.get_by_id db ref (rawToPy v1) = Except.ok o ∧
      Database._build_instance db [f1] [v1] s =
        Except.ok (setPys [("id", PyValue.none)] [(stripIdSuffix f1, optToPy o)]) ∧
      (∀ m : Int, optToPy o ≠ PyValue.int m) ∧
      (v1 = SqlValue.null → o = Option.none)) ∧
    Database._build_instance db [f2] [v2] s =
      Except.ok (setPys [("id", PyValue.none)] [(f2, PyValue.bool (pyEqOne v2))]) ∧
    Database._build_instance db [f3] [v3] s =
      Except.ok (setPys [("id", PyValue.none)] [(f3, rawToPy v3)]) := by
  obtain ⟨tdr, htdr, _, _⟩ := conformsB_table h1c
  obtain ⟨res, hres, hnone, _⟩ := get_by_idF_spec ref.depth ref db (rawToPy v1) v1 tdr
    h1w h1c le_rfl (bindPy_rawToPy v1) htdr
  refine ⟨⟨res, hres, ?_, ?_, ?_⟩, ?_, ?_⟩
  · rw [Database._build_instance, buildInstanceWith]
    simp only [List.zip_cons_cons, List.zip_nil_left, buildFieldsWith, h1s, if_pos rfl,
      if_true, h1l]
    rw [show Database.get_by_id db ref (rawToPy v1) = Except.ok res from hres]
    rfl
  · intro m hm
    cases res with
    | none => cases hm
    | some d => cases hm
  · intro hv1
    subst hv1
    apply hnone
    rw [List.filter_eq_nil_iff]
    intro r _
    simp [sqlEq_null_right]
  · rw [Database._build_instance, buildInstanceWith]
    simp only [List.zip_cons_cons, List.zip_nil_left, buildFieldsWith, h2s,
      Bool.false_eq_true, if_false, h2l, if_pos rfl, if_true]
    rfl
  · rw [Database._build_instance, buildInstanceWith]
    rcases h3l with h3l | ⟨h3l, h3nb⟩
    · simp only [List.zip_cons_cons, List.zip_nil_left, buildFieldsWith, h3s,
        Bool.false_eq_true, if_false, h3l]
      rfl
    · simp only [List.zip_cons_cons, List.zip_nil_left, buildFieldsWith, h3s,
        Bool.false_eq_true, if_false, h3l, if_neg h3nb]
      rfl

/-- **C5.** `get_by_id` issues `SELECT * FROM <table> WHERE id = ?` with the id
as sole parameter; with no matching row it returns the explicit null result
without raising, and with a single matching row it returns that row's
instance. -/
theorem C5_get_by_id (db : DBState) (s : Schema) (td : TableData) (n m : Int)
    (row : Int × List SqlValue)
    (hw : wfB s = true) (hc : conformsB db s = true)
    (ht : lookupTable db (tableKey s) = some td)
    (habs : ∀ r ∈ td.rows, r.1 ≠ n)
    (hone : td.rows.filter (fun r => sqlEq (SqlValue.int r.1) (SqlValue.int m)) = [row]) :
    ((_get_select_sql s [("id", PyValue.int n)]).1 =
        "SELECT * FROM " ++ pyLower s.name ++ " WHERE id = ?" ∧
      (_get_select_sql s [("id", PyValue.int n)]).2.2 = [PyValue.int n]) ∧
    Database.get_by_id db s (PyValue.int n) = Except.ok Option.none ∧
    ∃ data, Database.get_by_id db s (PyValue.int m) = Except.ok (some data) ∧
      lookupPy data ("id") = some (PyValue.int row.1) := by
  refine ⟨⟨rfl, rfl⟩, ?_, ?_⟩
  · obtain ⟨res, hres, hnone, _⟩ := get_by_idF_spec s.depth s db
      (PyValue.int n) (SqlValue.int n) td hw hc le_rfl rfl ht
    rw [Database.get_by_id, hres]
    rw [hnone (by
      rw [List.filter_eq_nil_iff]
      intro r hr
      simp [sqlEq_int_int, habs r hr])]
  · obtain ⟨res, hres, _, hsome⟩ := get_by_idF_spec s.depth s db
      (PyValue.int m) (SqlValue.int m) td hw hc le_rfl rfl ht
    obtain ⟨data, hdata, hdid⟩ := hsome row [] hone
    exact ⟨data, by rw [Database.get_by_id, hres, hdata], hdid⟩

/-- **C6.** `filter` with zero equality constraints returns exactly what
`get_all` returns, on every record type and every database state. -/
theorem C6_filter_empty_eq_get_all (db : DBState) (s : Schema) :
    Database.filter db s [] = Database.get_all db s := by
  rw [Database.filter, Database.get_all]
  cases hrs : runSelect db s [] with
  | error e => rfl
  | ok rows =>
    cases rows with
    | nil => rfl
    | cons r rest => rfl

/-- **C8.** `delete` issues `DELETE FROM <table> WHERE id = ?` with parameter
list `[id]` and commits, for every id; deleting an id no row has does not
raise and leaves the table's rows (hence its row count) unchanged. -/
theorem C8_delete (db : DBState) (s : Schema) (td : TableData) (n1 n2 : Int)
    (ht : lookupTable db (tableKey s) = some td)
    (habs : ∀ r ∈ td.rows, r.1 ≠ n2) :
    (∀ m : Int, _get_delete_sql s (PyValue.int m) =
      ("DELETE FROM " ++ pyLower s.name ++ " WHERE id = ?", [PyValue.int m])) ∧
    (∃ db2, Database.delete db s (PyValue.int n1) = Except.ok db2 ∧
      db2.commits = db.commits + 1) ∧
    (∃ db2, Database.delete db s (PyValue.int n2) = Except.ok db2 ∧
      db2.commits = db.commits + 1 ∧ lookupTable db2 (tableKey s) = some td) := by
  refine ⟨fun m => rfl, ?_, ?_⟩
  · refine ⟨commitDB (setTable db (tableKey s)
      { td with rows := td.rows.filter (fun r => !(sqlEq (SqlValue.int r.1) (SqlValue.int n1))) }),
      ?_, rfl⟩
    rw [Database.delete]
    show (do
      let c ← bindPy (PyValue.int n1)
      match lookupTable db (tableKey s) with
      | Option.none => Except.error PyErr.operationalError
      | some td3 =>
        Except.ok (commitDB (setTable db (tableKey s)
          { td3 with rows := td3.rows.filter (fun r => !(sqlEq (SqlValue.int r.1) c)) }))) = _
    rw [ht]
    rfl
  · have hkeep : td.rows.filter (fun r => !(sqlEq (SqlValue.int r.1) (SqlValue.int n2))) =
        td.rows := by
      rw [List.filter_eq_self]
      intro r hr
      simp [sqlEq_int_int, habs r hr]
    refine ⟨commitDB (setTable db (tableKey s) td), ?_, rfl, ?_⟩
    · rw [Database.delete]
      show (do
        let c ← bindPy (PyValue.int n2)
        match lookupTable db (tableKey s) with
        | Option.none => Except.error PyErr.operationalError
        | some td3 =>
          Except.ok (commitDB (setTable db (tableKey s)
            { td3 with rows := td3.rows.filter (fun r => !(sqlEq (SqlValue.int r.1) c)) }))) = _
      rw [ht]
      show Except.ok (commitDB (setTable db (tableKey s) { td with rows := _ })) = _
      rw [hkeep]
    · exact lookupTable_setTable_self db (tableKey s) td td ht

/-- Chained `order_by` calls, applied in order. -/
def applyOrderBys (q : QueryObject) : List (String × Bool) → QueryObject
  | [] => q
  | (c, d) :: rest => applyOrderBys (q.order_by c d) rest

theorem orderDir_sticky :
    ∀ (calls : List (String × Bool)) (q : QueryObject),
      q._order_dir = " DESC" → (applyOrderBys q calls)._order_dir = " DESC" := by
  intro calls
  induction calls with
  | nil =>
    intro q h
    exact h
  | cons cd rest ih =>
    intro q h
    rw [applyOrderBys.eq_def]
    cases cd with
    | mk c d =>
      apply ih
      cases d with
      | false => exact h
      | true => rfl

/-- **C9.** Once `order_by(..., desc=True)` has been called, the builder's
direction is DESC after every further sequence of `order_by` calls, and a
later `order_by(c, desc=False)` changes only the ordering criteria — it never
restores the ascending direction. -/
theorem C9_order_by_desc_sticky (q : QueryObject) (c1 : String)
    (calls : List (String × Bool)) (c2 : String) :
    (applyOrderBys (q.order_by c1 true) calls)._order_dir = " DESC" ∧
    q.order_by c2 false = { q with _order_criteria := some c2 } :=
  ⟨orderDir_sticky calls (q.order_by c1 true) rfl, rfl⟩

/-- **C10.** `limit(0)` stores the count 0, yet — because the LIMIT clause is
appended only when the stored count is truthy — `execute` behaves exactly as
if `limit` had never been called, returning all matching rows rather than
zero rows. -/
theorem C10_limit_zero (db : DBState) (q : QueryObject)
    (h : q._limit_count = Option.none) :
    (q.limit (some 0))._limit_count = some 0 ∧
    QueryObject.execute db (q.limit (some 0)) = QueryObject.execute db q := by
  refine ⟨rfl, ?_⟩
  cases q with
  | mk tbl dir crit fd lim =>
    simp only [QueryObject._limit_count] at h
    subst h
    rfl

/-- Witness for C3: saving `bookInst` into `db0` and fetching it back by the
assigned id reproduces title, published and the author reference. -/
theorem C3_roundtrip_witness :
    (wfB bookS = true ∧ conformsB db0 bookS = true ∧
      fieldsAvoidB (tableKey bookS) bookS.fields = true ∧
      lookupTable db0 (tableKey bookS) = some ⟨[], 0⟩ ∧
      instOkB db0 bookInst bookS.fields = true) ∧
    (∃ db2 inst2 ret,
      Database.save db0 bookS bookInst = Except.ok (db2, inst2) ∧
      lookupPy inst2 ("id") = some (PyValue.int ((⟨[], 0⟩ : TableData).seq + 1)) ∧
      Database.get_by_id db2 bookS (PyValue.int ((⟨[], 0⟩ : TableData).seq + 1)) =
        Except.ok (some ret) ∧
      (∀ n t, (n, FieldSpec.column t) ∈ bookS.fields →
        lookupPy ret n = lookupPy bookInst n) ∧
      (∀ n b, (n, FieldSpec.column PyType.bool) ∈ bookS.fields →
        lookupPy bookInst n = some (PyValue.bool b) →
        lookupPy ret n = some (PyValue.bool b)) ∧
      (∀ n ref, (n, FieldSpec.foreignKey ref) ∈ bookS.fields →
        ∃ rid dOrig dRet,
          lookupPy bookInst n = some (PyValue.obj dOrig) ∧
          lookupPy dOrig ("id") = some (PyValue.int rid) ∧
          lookupPy ret n = some (PyValue.obj dRet) ∧
          lookupPy dRet ("id") = some (PyValue.int rid))) :=
  ⟨⟨by decide, by decide, by decide, rfl, by decide⟩,
    C3_save_get_by_id_roundtrip db0 bookS bookInst ⟨[], 0⟩
      (by decide) (by decide) (by decide) rfl (by decide)⟩

/-- Witness for C4 on `Book`: `author_id` dereferences to the author instance,
`published` converts through equality-with-1, `title` is kept raw. -/
theorem C4_build_instance_rules_witness :
    (hasIdSuffix ("author_id") = true ∧
      lookupField bookS.fields (stripIdSuffix ("author_id")) =
        some (FieldSpec.foreignKey authorS) ∧
      wfB authorS = true ∧ conformsB db0 authorS = true ∧
      hasIdSuffix ("published") = false ∧
      lookupField bookS.fields ("published") = some (FieldSpec.column PyType.bool) ∧
      hasIdSuffix ("title") = false ∧
      (lookupField bookS.fields ("title") = Option.none ∨
        (lookupField bookS.fields ("title") = some (FieldSpec.column PyType.str) ∧
          PyType.str ≠ PyType.bool))) ∧
    ((∃ o, Database.get_by_id db0 authorS (rawToPy (SqlValue.int 1)) = Except.ok o ∧
      Database._build_instance db0 [("author_id")] [SqlValue.int 1] bookS =
        Except.ok (setPys [("id", PyValue.none)] [(stripIdSuffix ("author_id"), optToPy o)]) ∧
      (∀ m : Int, optToPy o ≠ PyValue.int m) ∧
      (SqlValue.int 1 = SqlValue.null → o = Option.none)) ∧
    Database._build_instance db0 [("published")] [SqlValue.int 1] bookS =
      Except.ok (setPys [("id", PyValue.none)] [("published", PyValue.bool (pyEqOne (SqlValue.int 1)))]) ∧
    Database._build_instance db0 [("title")] [SqlValue.text "T"] bookS =
      Except.ok (setPys [("id", PyValue.none)] [("title", rawToPy (SqlValue.text "T"))])) :=
  ⟨⟨by decide, rfl, by decide, by decide, by decide, rfl, by decide, Or.inr ⟨rfl, by decide⟩⟩,
    C4_build_instance_rules db0 bookS ("author_id") (SqlValue.int 1) authorS
      ("published") (SqlValue.int 1) ("title") (SqlValue.text "T") PyType.str
      (by decide) rfl (by decide) (by decide) (by decide) rfl (by decide)
      (Or.inr ⟨rfl, by decide⟩)⟩

/-- Witness for C5 on the `author` table of `db0`: id 99 is absent and yields
the null result; id 1 yields the stored author row. -/
theorem C5_get_by_id_witness :
    (wfB authorS = true ∧ conformsB db0 authorS = true ∧
      lookupTable db0 (tableKey authorS) =
        some ⟨[(1, [SqlValue.int 33, SqlValue.text "X"])], 1⟩ ∧
      (∀ r ∈ (⟨[(1, [SqlValue.int 33, SqlValue.text "X"])], 1⟩ : TableData).rows,
        r.1 ≠ (99 : Int)) ∧
      (⟨[(1, [SqlValue.int 33, SqlValue.text "X"])], 1⟩ : TableData).rows.filter
          (fun r => sqlEq (SqlValue.int r.1) (SqlValue.int 1)) =
        [(1, [SqlValue.int 33, SqlValue.text "X"])]) ∧
    (((_get_select_sql authorS [("id", PyValue.int 99)]).1 =
        "SELECT * FROM " ++ pyLower authorS.name ++ " WHERE id = ?" ∧
      (_get_select_sql authorS [("id", PyValue.int 99)]).2.2 = [PyValue.int 99]) ∧
    Database.get_by_id db0 authorS (PyValue.int 99) = Except.ok Option.none ∧
    ∃ data, Database.get_by_id db0 authorS (PyValue.int 1) = Except.ok (some data) ∧
      lookupPy data ("id") =
        some (PyValue.int (1, [SqlValue.int 33, SqlValue.text "X"]).1)) :=
  ⟨⟨by decide, by decide, rfl, by decide, by decide⟩,
    C5_get_by_id db0 authorS ⟨[(1, [SqlValue.int 33, SqlValue.text "X"])], 1⟩ 99 1
      (1, [SqlValue.int 33, SqlValue.text "X"])
      (by decide) (by decide) rfl (by decide) (by decide)⟩

/-- Witness for C8 on the `author` table of `db0`: deleting id 1 and the
absent id 42 both succeed and commit; deleting 42 leaves the rows unchanged. -/
theorem C8_delete_witness :
    (lookupTable db0 (tableKey authorS) =
        some ⟨[(1, [SqlValue.int 33, SqlValue.text "X"])], 1⟩ ∧
      (∀ r ∈ (⟨[(1, [SqlValue.int 33, SqlValue.text "X"])], 1⟩ : TableData).rows,
        r.1 ≠ (42 : Int))) ∧
    ((∀ m : Int, _get_delete_sql authorS (PyValue.int m) =
      ("DELETE FROM " ++ pyLower authorS.name ++ " WHERE id = ?", [PyValue.int m])) ∧
    (∃ db2, Database.delete db0 authorS (PyValue.int 1) = Except.ok db2 ∧
      db2.commits = db0.commits + 1) ∧
    (∃ db2, Database.delete db0 authorS (PyValue.int 42) = Except.ok db2 ∧
      db2.commits = db0.commits + 1 ∧
      lookupTable db2 (tableKey authorS) =
        some ⟨[(1, [SqlValue.int 33, SqlValue.text "X"])], 1⟩)) :=
  ⟨⟨rfl, by decide⟩,
    C8_delete db0 authorS ⟨[(1, [SqlValue.int 33, SqlValue.text "X"])], 1⟩ 1 42
      rfl (by decide)⟩

/-- Witness for C10 on a fresh builder over `Book` with an empty filter. -/
theorem C10_limit_zero_witness :
    ((Database.get bookS).where_ [])._limit_count = Option.none ∧
    ((((Database.get bookS).where_ []).limit (some 0))._limit_count = some 0 ∧
      QueryObject.execute db0 (((Database.get bookS).where_ []).limit (some 0)) =
        QueryObject.execute db0 ((Database.get bookS).where_ [])) :=
  ⟨rfl, C10_limit_zero db0 ((Database.get bookS).where_ []) rfl⟩
